import Mathlib

/-!
Shallow embedding of the `gonih.org/date` Go package (calendar arithmetic,
layout compiler, formatter, parser, binary/text marshaling) together with
proofs about it.

Go `int` values are modelled as `Int` (Go's truncated division/remainder as
`Int.tdiv`/`Int.tmod`); Go `uint64` values are modelled as `Nat`, with the
`int`-to-`uint64` conversion made explicit as reduction modulo `2 ^ 64`.
Go strings are modelled as `List Char` (all characters involved are ASCII,
so bytes and characters coincide).
-/

namespace GoDate

/-- Width of the modelled platform word (`int` is 64 bits wide). -/
def wordMod : Int := 18446744073709551616

/-- The unsigned zero year for internal calculations (`absoluteZeroYear`). -/
def absoluteZeroYear : Int := -292277022399

/-- The year of the zero Date (`internalYear`). -/
def internalYear : Int := 1

/-- `internalToAbsolute = -(absoluteZeroYear - internalYear) * 365.2425`;
Go evaluates this constant expression exactly to the integer below. -/
def internalToAbsolute : Int := 106751990353932

/-- `absoluteToInternal`, the negation of `internalToAbsolute`. -/
def absoluteToInternal : Int := -106751990353932

def daysPer400Years : Int := 146097
def daysPer100Years : Int := 36524
def daysPer4Years : Int := 1461

/-- `daysBefore[m]` counts the number of days in a non-leap year before month
`m` begins (13 entries, index 12 gives 365). Out-of-range indices are junk
(the Go array would panic; no call site reaches them). -/
def daysBefore : Int → Int
  | 0 => 0
  | 1 => 31
  | 2 => 31 + 28
  | 3 => 31 + 28 + 31
  | 4 => 31 + 28 + 31 + 30
  | 5 => 31 + 28 + 31 + 30 + 31
  | 6 => 31 + 28 + 31 + 30 + 31 + 30
  | 7 => 31 + 28 + 31 + 30 + 31 + 30 + 31
  | 8 => 31 + 28 + 31 + 30 + 31 + 30 + 31 + 31
  | 9 => 31 + 28 + 31 + 30 + 31 + 30 + 31 + 31 + 30
  | 10 => 31 + 28 + 31 + 30 + 31 + 30 + 31 + 31 + 30 + 31
  | 11 => 31 + 28 + 31 + 30 + 31 + 30 + 31 + 31 + 30 + 31 + 30
  | 12 => 31 + 28 + 31 + 30 + 31 + 30 + 31 + 31 + 30 + 31 + 30 + 31
  | _ => 0

/-- `isLeap(year)`: `year%4 == 0 && (year%100 != 0 || year%400 == 0)`,
with Go's truncated remainder. -/
def isLeap (year : Int) : Bool :=
  year.tmod 4 == 0 && (year.tmod 100 != 0 || year.tmod 400 == 0)

/-- `daysIn(m, year)`: number of days of month `m` in `year`. -/
def daysIn (m : Int) (year : Int) : Int :=
  if m == 2 && isLeap year then 29
  else daysBefore m - daysBefore (m - 1)

/-- `norm(hi, lo, base)` returns `nhi, nlo` with
`hi*base + lo == nhi*base + nlo` and `0 <= nlo < base`. -/
def norm (hi lo base : Int) : Int × Int :=
  let p :=
    if lo < 0 then
      let n := (-lo - 1).tdiv base + 1
      (hi - n, lo + n * base)
    else (hi, lo)
  let hi := p.1
  let lo := p.2
  if base ≤ lo then
    let n := lo.tdiv base
    (hi + n, lo - n * base)
  else (hi, lo)

/-- `daysSinceEpoch(year)`: days from the absolute epoch to the start of
`year`. -/
def daysSinceEpoch (year : Int) : Int :=
  let y := year - absoluteZeroYear
  let n := y.tdiv 400
  let y := y - 400 * n
  let d := daysPer400Years * n
  let n2 := y.tdiv 100
  let y2 := y - 100 * n2
  let d2 := d + daysPer100Years * n2
  let n3 := y2.tdiv 4
  let y3 := y2 - 4 * n3
  let d3 := d2 + daysPer4Years * n3
  let d4 := d3 + 365 * y3
  d4

/-- A `Date` is a Go `int` day count since 0001-01-01. -/
abbrev Date := Int

/-- Month/day extraction at the end of `absDate` (the code after the
leap-year `switch`): estimate the month assuming 31-day months, then adjust
by the `daysBefore` table. Returns `(month, day)`, 1-based. -/
def absDateMD (day : Int) : Int × Int :=
  let month := day.tdiv 31
  let en := daysBefore (month + 1)
  let p := if en ≤ day then (month + 1, en) else (month, daysBefore month)
  (p.1 + 1, day - p.2 + 1)

/-- The `full` part of `absDate` (the leap-year `switch` plus the month
estimate): from the year (for its leapness) and the 0-based day of the year,
compute `(month, day)`, 1-based. -/
def absDateFull (year : Int) (yday : Int) : Int × Int :=
  if isLeap year then
    if yday > 31 + 29 - 1 then
      -- After leap day; pretend it wasn't there.
      absDateMD (yday - 1)
    else if yday == 31 + 29 - 1 then
      -- Leap day.
      (2, 29)
    else absDateMD yday
  else absDateMD yday

/-- `absDate(abs, full)` computes `(year, month, day, yday)` for the absolute
day count `abs`; when `full` is false, month and day are left zero. -/
def absDate (abs : Nat) (full : Bool) : Int × Int × Int × Int :=
  let d := abs
  -- Account for 400 year cycles.
  let n := d / 146097
  let y := 400 * n
  let d := d - 146097 * n
  -- Cut off 100-year cycles; correct the extra leap year with `n >> 2`.
  let n := d / 36524
  let n := n - n >>> 2
  let y := y + 100 * n
  let d := d - 36524 * n
  -- Cut off 4-year cycles.
  let n := d / 1461
  let y := y + 4 * n
  let d := d - 1461 * n
  -- Cut off years within a 4-year cycle; correct with `n >> 2`.
  let n := d / 365
  let n := n - n >>> 2
  let y := y + n
  let d := d - 365 * n
  let year : Int := (y : Int) + absoluteZeroYear
  let yday : Int := (d : Int)
  if !full then (year, 0, 0, yday)
  else
    let p := absDateFull year yday
    (year, p.1, p.2, yday)

/-- `Of(year, month, day)`: the normalizing triple-to-`Date` constructor. -/
def Of (year month day : Int) : Date :=
  let m := month - 1
  let p := norm year m 12
  let year := p.1
  let month := p.2 + 1
  let d := daysSinceEpoch year
  let d := d + daysBefore (month - 1)
  let d := if isLeap year && 3 ≤ month then d + 1 else d
  let d := d + (day - 1)
  d - internalToAbsolute

/-- `Date.abs`: the absolute date of `d` (the Go conversion
`uint64(d + internalToAbsolute)` wraps modulo `2^64`). -/
def Date.abs (d : Date) : Nat :=
  ((d + internalToAbsolute) % wordMod).toNat

/-- `Date.Date`: the normalized year, month and day specified by `d`. -/
def DateTriple (d : Date) : Int × Int × Int :=
  let r := absDate (Date.abs d) true
  (r.1, r.2.1, r.2.2.1)

/-- `Date.Year`: the year in which `d` occurs. -/
def DateYear (d : Date) : Int :=
  (absDate (Date.abs d) false).1

/-- `Date.YearDay`: 1-based day of the year of `d`. -/
def DateYearDay (d : Date) : Int :=
  (absDate (Date.abs d) false).2.2.2 + 1

/-- Conversion of a `uint64` value to Go `int` (two's complement). -/
def toInt64 (n : Nat) : Int :=
  if (n : Int) < wordMod / 2 then (n : Int) else (n : Int) - wordMod

/-- `Date.Weekday`: `(time.Monday + time.Weekday(d.abs())) % 7`
(0001-01-01 was a Monday; Sunday is 0). -/
def DateWeekday (d : Date) : Int :=
  (1 + toInt64 (Date.abs d)).tmod 7

/-- `Date.AddDate`: add years, months and days, renormalizing via `Of`. -/
def DateAddDate (d : Date) (years months days : Int) : Date :=
  let t := DateTriple d
  Of (t.1 + years) (t.2.1 + months) (t.2.2 + days)

/-! ### Proof-side specification helpers for the calendar arithmetic -/

/-- Days from the absolute epoch to the start of absolute year offset `Y`
(the closed form that `daysSinceEpoch` computes for nonnegative offsets). -/
def dse (Y : Nat) : Nat :=
  146097 * (Y / 400) + 36524 * (Y % 400 / 100) +
    1461 * (Y % 400 % 100 / 4) + 365 * (Y % 400 % 100 % 4)

/-- Leapness of the absolute year offset `Y` (calendar year
`absoluteZeroYear + Y`; `absoluteZeroYear ≡ 1 [ZMOD 400]`). -/
def leapN (Y : Nat) : Bool :=
  (Y + 1) % 4 == 0 && ((Y + 1) % 100 != 0 || (Y + 1) % 400 == 0)

/-- Number of days of absolute year offset `Y`. -/
def yearLen (Y : Nat) : Nat := if leapN Y then 366 else 365

/-- 0-based day of the year of day `d` of month `m` (leapness `L`): the
packing that `Of` adds to `daysSinceEpoch`. -/
def packMD (L : Bool) (m d : Int) : Int :=
  daysBefore (m - 1) + (if L && 3 ≤ m then 1 else 0) + d - 1

/-- Days in month `m` as a function of the leapness `L`. -/
def dimLD (L : Bool) (m : Int) : Int :=
  if m == 2 && L then 29 else daysBefore m - daysBefore (m - 1)



/-! ### Layout compiler (format.go) -/

/-- Convert a string literal to its character list. -/
def strL (s : String) : List Char := s.data

def Layout : List Char := strL "01/02 '06"
def RFC822 : List Char := strL "02 Jan 06"
def RFC1123 : List Char := strL "02 Jan 2006"
def RFC3339 : List Char := strL "2006-01-02"

def longDayNames : List (List Char) :=
  [strL "Sunday", strL "Monday", strL "Tuesday", strL "Wednesday",
   strL "Thursday", strL "Friday", strL "Saturday"]

def shortDayNames : List (List Char) :=
  [strL "Sun", strL "Mon", strL "Tue", strL "Wed", strL "Thu", strL "Fri",
   strL "Sat"]

def shortMonthNames : List (List Char) :=
  [strL "Jan", strL "Feb", strL "Mar", strL "Apr", strL "May", strL "Jun",
   strL "Jul", strL "Aug", strL "Sep", strL "Oct", strL "Nov", strL "Dec"]

def longMonthNames : List (List Char) :=
  [strL "January", strL "February", strL "March", strL "April", strL "May",
   strL "June", strL "July", strL "August", strL "September", strL "October",
   strL "November", strL "December"]

/-- `fmtOp` is a formatting operator. -/
inductive fmtOp where
  | opLiteral
  | opLongMonth
  | opMonth
  | opLongWeekDay
  | opWeekDay
  | opZeroYearDay
  | opZeroMonth
  | opZeroDay
  | opYear
  | opNumMonth
  | opLongYear
  | opDay
  | opUnderLongYear
  | opUnderDay
  | opUnderYearDay
  | opInvalid
  deriving DecidableEq

export fmtOp (opLiteral opLongMonth opMonth opLongWeekDay opWeekDay
  opZeroYearDay opZeroMonth opZeroDay opYear opNumMonth opLongYear opDay
  opUnderLongYear opUnderDay opUnderYearDay opInvalid)

/-- `fmtOp.String`: the layout component of the operator. -/
def opString : fmtOp → List Char
  | opLiteral => strL "<literal>"
  | opLongMonth => strL "January"
  | opMonth => strL "Jan"
  | opLongWeekDay => strL "Monday"
  | opWeekDay => strL "Mon"
  | opZeroYearDay => strL "002"
  | opZeroMonth => strL "01"
  | opZeroDay => strL "02"
  | opYear => strL "06"
  | opNumMonth => strL "1"
  | opLongYear => strL "2006"
  | opDay => strL "2"
  | opUnderLongYear => strL "_2006"
  | opUnderDay => strL "_2"
  | opUnderYearDay => strL "__2"
  | opInvalid => []

/-- The parsing preference order `opLongMonth, …, opUnderYearDay` of the Go
`for op := opLongMonth; op < opInvalid; op++` loop. -/
def opsInOrder : List fmtOp :=
  [opLongMonth, opMonth, opLongWeekDay, opWeekDay, opZeroYearDay, opZeroMonth,
   opZeroDay, opYear, opNumMonth, opLongYear, opDay, opUnderLongYear,
   opUnderDay, opUnderYearDay]

/-- `endsWord`: whether `op` must not be followed by a lower-case letter. -/
def endsWord (op : fmtOp) : Bool := op == opMonth || op == opWeekDay

/-- `startsWithLowerCase`: whether the string starts with a lower-case
letter. -/
def startsWithLowerCase : List Char → Bool
  | [] => false
  | c :: _ => 'a' ≤ c && c ≤ 'z'

/-- `strings.CutPrefix`: cut `pre` from the front of `s`. -/
def cutPre : List Char → List Char → Option (List Char)
  | s, [] => some s
  | [], _ :: _ => none
  | c :: s, q :: qs => if c = q then cutPre s qs else none

/-- A single component of a layout string: a literal or an operator. -/
structure inst where
  op : fmtOp
  lit : List Char
  deriving DecidableEq

/-- `inst.String`: the literal text for literals, the operator token text
otherwise. -/
def instString (i : inst) : List Char :=
  if i.op == opLiteral then i.lit else opString i.op

/-- The inner operator loop of `nextOp`: try each operator in preference
order at the current position. -/
def tryOps : List fmtOp → List Char → Option (fmtOp × List Char)
  | [], _ => none
  | op :: ops, s =>
    match cutPre s (opString op) with
    | some suf =>
      if endsWord op && startsWithLowerCase suf then tryOps ops s
      else some (op, suf)
    | none => tryOps ops s

/-- `nextOp` decomposes layout into a literal prefix, the next operator and
the rest of the layout. -/
def nextOp : List Char → List Char × fmtOp × List Char
  | [] => ([], opLiteral, [])
  | c :: rest =>
    match tryOps opsInOrder (c :: rest) with
    | some (op, suf) => ([], op, suf)
    | none =>
      let r := nextOp rest
      (c :: r.1, r.2.1, r.2.2)

/-- The `for len(layout) > 0` loop of `parseLayout`, with explicit fuel (one
unit per iteration; `layout.length` units suffice, see
`parseLayoutF_concat`). -/
def parseLayoutF : Nat → List Char → List inst
  | 0, _ => []
  | fuel + 1, layout =>
    if layout = [] then []
    else
      let r := nextOp layout
      (if r.1 = [] then [] else [⟨opLiteral, r.1⟩]) ++
      (if r.2.1 = opLiteral then [] else [⟨r.2.1, []⟩]) ++
      parseLayoutF fuel r.2.2

/-- `parseLayout` parses a layout into instructions to parse or format
according to it. -/
def parseLayout (layout : List Char) : List inst :=
  parseLayoutF layout.length layout

/-! ### Formatter (format.go) -/

/-- Decimal digit character for `n < 10` (digit emission of
`strconv.AppendInt`). -/
def digitChar : Nat → Char
  | 0 => '0'
  | 1 => '1'
  | 2 => '2'
  | 3 => '3'
  | 4 => '4'
  | 5 => '5'
  | 6 => '6'
  | 7 => '7'
  | 8 => '8'
  | 9 => '9'
  | _ => '*'

/-- Digit-emission loop of `strconv.AppendInt`, with explicit fuel (the
value strictly shrinks by a factor 10 each step, so `n + 1` units always
suffice; see `decDigitsAux_eq`). -/
def decDigitsAux : Nat → Nat → List Char
  | 0, _ => []
  | fuel + 1, n =>
    if n < 10 then [digitChar n]
    else decDigitsAux fuel (n / 10) ++ [digitChar (n % 10)]

/-- Decimal digits of a natural number, most significant first. -/
def decDigits (n : Nat) : List Char := decDigitsAux (n + 1) n

/-- `strconv.AppendInt(b, v, 10)` without the buffer: decimal representation
of `v`, with a leading minus sign when negative. -/
def appendIntDec (v : Int) : List Char :=
  if v < 0 then '-' :: decDigits (-v).toNat else decDigits v.toNat

/-- `time.Month.String`: long month name for months 1 to 12 (the Go fallback
text for out-of-range months is irrelevant here and elided to a marker). -/
def monthString (m : Int) : List Char :=
  if 1 ≤ m ∧ m ≤ 12 then longMonthNames.getD (m - 1).toNat []
  else strL "%!Month"

/-- `time.Weekday.String`: long weekday name for weekdays 0 to 6 (the Go
fallback for out-of-range weekdays is elided to a marker). -/
def weekdayString (w : Int) : List Char :=
  if 0 ≤ w ∧ w ≤ 6 then longDayNames.getD w.toNat []
  else strL "%!Weekday"

/-- One case of the `AppendFormat` instruction switch. -/
def appendInst (year month day yday wd : Int) (b : List Char) (i : inst) :
    List Char :=
  match i.op with
  | opLiteral => b ++ i.lit
  | opYear =>
    let y := year.tmod 100
    let y := if y < 0 then -y else y
    b ++ (if y < 10 then ['0'] else []) ++ appendIntDec y
  | opUnderLongYear =>
    (b ++ ['_']) ++
      (if year < 0 then '-' :: fmtLongYearAbs (-year) else fmtLongYearAbs year)
  | opLongYear =>
    b ++ (if year < 0 then '-' :: fmtLongYearAbs (-year) else fmtLongYearAbs year)
  | opMonth => b ++ (monthString month).take 3
  | opLongMonth => b ++ monthString month
  | opNumMonth => b ++ appendIntDec month
  | opZeroMonth => b ++ (if month < 10 then ['0'] else []) ++ appendIntDec month
  | opWeekDay => b ++ (weekdayString wd).take 3
  | opLongWeekDay => b ++ weekdayString wd
  | opDay => b ++ appendIntDec day
  | opUnderDay => b ++ (if day < 10 then [' '] else []) ++ appendIntDec day
  | opZeroDay => b ++ (if day < 10 then ['0'] else []) ++ appendIntDec day
  | opUnderYearDay =>
    b ++ (if yday < 100 then (if yday < 10 then [' ', ' '] else [' ']) else []) ++
      appendIntDec yday
  | opZeroYearDay =>
    b ++ (if yday < 100 then (if yday < 10 then ['0', '0'] else ['0']) else []) ++
      appendIntDec yday
  | opInvalid => b
where
  /-- zero padding to four digits of a nonnegative year (the three `if y < _`
  pads of the `opLongYear` case). -/
  fmtLongYearAbs (y : Int) : List Char :=
    (if y < 1000 then ['0'] else []) ++ (if y < 100 then ['0'] else []) ++
      (if y < 10 then ['0'] else []) ++ appendIntDec y

/-- `Date.AppendFormat`. -/
def AppendFormat (d : Date) (b : List Char) (layout : List Char) : List Char :=
  let r := absDate (Date.abs d) true
  let yday := r.2.2.2 + 1
  let prog := parseLayout layout
  prog.foldl (appendInst r.1 r.2.1 r.2.2.1 yday (DateWeekday d)) b

/-- `Date.Format` (the buffer pre-sizing of the Go code is a performance
detail with no observable effect). -/
def Format (d : Date) (layout : List Char) : List Char :=
  AppendFormat d [] layout




/-! ### Parser (format.go) -/

/-- Whether `c` is an ASCII digit (`isDigit`). -/
def isDigitC (c : Char) : Bool := '0' ≤ c && c ≤ '9'

/-- `match(s1, s2)`: case-insensitive ASCII comparison of two strings of the
same length (`c | 0x20` lower-cases an ASCII letter). -/
def matchCI : List Char → List Char → Bool
  | [], [] => true
  | c1 :: r1, c2 :: r2 =>
    (if c1 = c2 then true
     else
       let l1 := c1.toNat ||| 32
       let l2 := c2.toNat ||| 32
       decide (l1 = l2) && decide (97 ≤ l1) && decide (l1 ≤ 122)) &&
    matchCI r1 r2
  | _, _ => false

/-- The state of `parser`: current instruction and input offset for error
reporting, error flag, and remaining input. -/
structure parserS where
  inst : inst
  hasErr : Bool
  value : List Char
  valEl : List Char
  deriving DecidableEq

/-- `newParser`. -/
def newParser (value : List Char) : parserS :=
  { inst := ⟨opLiteral, []⟩, hasErr := false, value := value, valEl := [] }

/-- `parser.parseFailed`. -/
def parseFailed (p : parserS) : parserS := { p with hasErr := true }

/-- `parser.setInst`. -/
def setInst (p : parserS) (i : inst) : parserS :=
  { p with inst := i, valEl := p.value }

/-- `parser.finish`. -/
def finish (p : parserS) : parserS :=
  { p with inst := ⟨opInvalid, []⟩, valEl := [] }

/-- `parser.skipByte`: skip the given character if the input starts with
it. -/
def skipByte (p : parserS) (b : Char) : parserS :=
  match p.value with
  | c :: rest => if c = b then { p with value := rest } else p
  | [] => p

/-- Drop a leading run of `b` (the loop of `parser.trimByte`). -/
def trimRun (b : Char) : List Char → List Char
  | c :: t => if c = b then trimRun b t else c :: t
  | [] => []

/-- `parser.trimByte`: skip a run of the given character. -/
def trimByte (p : parserS) (b : Char) : parserS :=
  { p with value := trimRun b p.value }

/-- `strings.TrimLeft(lit, " ")`. -/
def trimLeftSpaces : List Char → List Char
  | c :: t => if c = ' ' then trimLeftSpaces t else c :: t
  | [] => []

/-- The loop of `parser.accept`, with explicit fuel (each iteration consumes
at least one character of `lit`, so `lit.length` units always suffice). -/
def acceptF : Nat → parserS → List Char → parserS
  | 0, p, l => if l = [] then p else parseFailed p
  | fuel + 1, p, l =>
    match l with
    | [] => p
    | c :: lit2 =>
      if c = ' ' then
        match p.value with
        | v :: _ =>
          if v = ' ' then acceptF fuel (trimByte p ' ') (trimLeftSpaces lit2)
          else parseFailed p
        | [] => acceptF fuel (trimByte p ' ') (trimLeftSpaces lit2)
      else
        match p.value with
        | [] => parseFailed p
        | v :: rest =>
          if v = c then acceptF fuel { p with value := rest } lit2
          else parseFailed p

/-- `parser.accept`: accept a literal string, treating runs of space
characters as equivalent. -/
def accept (p : parserS) (lit : List Char) : parserS := acceptF lit.length p lit

/-- Digit scan of `strconv.Atoi` (no leading sign), accumulating the
value. -/
def atoiDigits : List Char → Int → Option Int
  | [], acc => some acc
  | c :: rest, acc =>
    if isDigitC c then atoiDigits rest (acc * 10 + ((c.toNat : Int) - 48))
    else none

/-- `strconv.Atoi` (overflow is immaterial at the widths used here). -/
def Atoi (s : List Char) : Option Int :=
  match s with
  | [] => none
  | c :: rest =>
    if c = '+' then (if rest = [] then none else atoiDigits rest 0)
    else if c = '-' then
      (if rest = [] then none else (atoiDigits rest 0).map (fun v => -v))
    else atoiDigits s 0

/-- `parser.atoi`: accept the next `i` characters of input as an integer. -/
def atoi (p : parserS) (i : Nat) : parserS × Int :=
  if p.value.length < i then (parseFailed p, 0)
  else
    match Atoi (p.value.take i) with
    | none => (parseFailed p, 0)
    | some v => ({ p with value := p.value.drop i }, v)

/-- The scanning loop of `parser.getnumN`: read up to `N` leading digits,
returning how many characters were read and the value. -/
def digiLoop : Nat → List Char → Nat → Int → Nat × Int
  | 0, _, i, n => (i, n)
  | _ + 1, [], i, n => (i, n)
  | nn + 1, c :: rest, i, n =>
    if isDigitC c then digiLoop nn rest (i + 1) (n * 10 + ((c.toNat : Int) - 48))
    else (i, n)

/-- `parser.getnumN`: parse `s[0:1]`, …, or `s[0:N]` (`fixed` forces
`s[0:N]`) as a decimal integer. -/
def getnumN (N : Nat) (fixed : Bool) (p : parserS) : parserS × Int :=
  let r := digiLoop N p.value 0 0
  if r.1 = 0 ∨ (fixed ∧ r.1 ≠ N) then (parseFailed p, 0)
  else ({ p with value := p.value.drop r.1 }, r.2)

/-- `parser.num`. -/
def num (p : parserS) (fixed : Bool) : parserS × Int := getnumN 2 fixed p

/-- `parser.num3`. -/
def num3 (p : parserS) (fixed : Bool) : parserS × Int := getnumN 3 fixed p

/-- `parser.peekDigit`: require a digit without advancing the input. -/
def peekDigit (p : parserS) : parserS :=
  match p.value with
  | c :: _ => if isDigitC c then p else parseFailed p
  | [] => parseFailed p

/-- The loop of `parser.lookup`, carrying the table index. -/
def lookupT (p : parserS) : List (List Char) → Nat → parserS × Int
  | [], _ => (parseFailed p, 0)
  | v :: rest, i =>
    if v.length ≤ p.value.length && matchCI (p.value.take v.length) v then
      ({ p with value := p.value.drop v.length }, (i : Int))
    else lookupT p rest (i + 1)

/-- `parser.lookup`: look up a value from a table and accept a
case-insensitive match. -/
def lookup (p : parserS) (table : List (List Char)) : parserS × Int :=
  lookupT p table 0

/-- `ParseError` describes a problem parsing a date string. -/
structure ParseError where
  Layout : List Char
  Value : List Char
  LayoutElem : List Char
  ValueElem : List Char
  Message : List Char
  deriving DecidableEq

/-- `parser.err`: an empty `msg` yields the syntactic-mismatch error carrying
the failing layout element and input fragment; a nonempty `msg` yields the
semantic error carrying only the message. (The `strings.Clone` calls are an
allocation optimization with no observable effect.) -/
def perr (p : parserS) (layout value msg : List Char) : ParseError :=
  if msg = [] then
    { Layout := layout, Value := value, LayoutElem := instString p.inst,
      ValueElem := p.valEl, Message := [] }
  else
    { Layout := layout, Value := value, LayoutElem := [], ValueElem := [],
      Message := msg }

/-- `strconv.Quote`, restricted to printable ASCII without quotes or
backslashes (the only inputs it receives in the theorems below). -/
def quoteGo (s : List Char) : List Char := '"' :: (s ++ ['"'])

/-- The instruction-execution loop of `Parse`: the per-opcode `switch`
followed by the `p.hasErr` check, threading `(year, month, day, yday)`. -/
def runInsts (alayout avalue : List Char) :
    List inst → parserS → Int → Int → Int → Int →
    Except ParseError (parserS × Int × Int × Int × Int)
  | [], p, year, month, day, yday => .ok (p, year, month, day, yday)
  | i :: rest, p, year, month, day, yday =>
    let p := setInst p i
    let r : Except ParseError (parserS × Int × Int × Int × Int) :=
      match i.op with
      | opLiteral => .ok (accept p i.lit, year, month, day, yday)
      | opYear =>
        let a := atoi p 2
        -- Unix time starts Dec 31 1969 in some time zones
        let y := if a.2 ≥ 69 then a.2 + 1900 else a.2 + 2000
        .ok (a.1, y, month, day, yday)
      | opUnderLongYear =>
        let p := accept p ['_']
        let p := peekDigit p
        let a := atoi p 4
        .ok (a.1, a.2, month, day, yday)
      | opLongYear =>
        let p := peekDigit p
        let a := atoi p 4
        .ok (a.1, a.2, month, day, yday)
      | opMonth =>
        let a := lookup p shortMonthNames
        .ok (a.1, year, a.2 + 1, day, yday)
      | opLongMonth =>
        let a := lookup p longMonthNames
        .ok (a.1, year, a.2 + 1, day, yday)
      | opNumMonth =>
        let a := num p false
        if a.2 ≤ 0 ∨ 12 < a.2 then
          .error (perr a.1 alayout avalue (strL "month out of range"))
        else .ok (a.1, year, a.2, day, yday)
      | opZeroMonth =>
        let a := num p true
        if a.2 ≤ 0 ∨ 12 < a.2 then
          .error (perr a.1 alayout avalue (strL "month out of range"))
        else .ok (a.1, year, a.2, day, yday)
      | opWeekDay =>
        -- ignore weekday, except for parsing
        .ok ((lookup p shortDayNames).1, year, month, day, yday)
      | opLongWeekDay =>
        -- ignore weekday, except for parsing
        .ok ((lookup p longDayNames).1, year, month, day, yday)
      | opUnderDay =>
        let p := skipByte p ' '
        let a := num p false
        .ok (a.1, year, month, a.2, yday)
      | opDay =>
        let a := num p false
        .ok (a.1, year, month, a.2, yday)
      | opZeroDay =>
        let a := num p true
        .ok (a.1, year, month, a.2, yday)
      | opUnderYearDay =>
        let p := skipByte p ' '
        let p := skipByte p ' '
        let a := num3 p false
        .ok (a.1, year, month, day, a.2)
      | opZeroYearDay =>
        let a := num3 p true
        .ok (a.1, year, month, day, a.2)
      | opInvalid =>
        -- unreachable from parseLayout output (the Go code would panic)
        .ok (p, year, month, day, yday)
    match r with
    | .error e => .error e
    | .ok (p, year, month, day, yday) =>
      if p.hasErr then .error (perr p alayout avalue [])
      else runInsts alayout avalue rest p year month day yday

/-- `Parse` parses a formatted string and returns the date value it
represents. -/
def Parse (layout value : List Char) : Except ParseError Date :=
  let p0 := newParser value
  match runInsts layout value (parseLayout layout) p0 0 (-1) (-1) (-1) with
  | .error e => .error e
  | .ok (p, year, month, day, yday) =>
    if p.value ≠ [] then
      .error (perr p layout value (strL "extra text: " ++ quoteGo p.value))
    else
      let p := finish p
      -- Validate the parsed date
      if yday ≥ 0 then
        let t : Int × Int × Int :=
          if isLeap year then
            if yday == 31 + 29 then (yday, 2, 29)
            else if yday > 31 + 29 then (yday - 1, 0, 0)
            else (yday, 0, 0)
          else (yday, 0, 0)
        if t.1 < 1 ∨ t.1 > 365 then
          .error (perr p layout value (strL "day-of-year out of range"))
        else
          let md : Int × Int :=
            if t.2.1 == 0 then
              let m := (t.1 - 1).tdiv 31 + 1
              let m := if daysBefore m < t.1 then m + 1 else m
              (m, t.1 - daysBefore (m - 1))
            else (t.2.1, t.2.2)
          -- If month, day already seen, yday must match them.
          if month ≥ 0 ∧ month ≠ md.1 then
            .error (perr p layout value (strL "day-of-year does not match month"))
          else if day ≥ 0 ∧ day ≠ md.2 then
            .error (perr p layout value (strL "day-of-year does not match day"))
          else if md.2 < 1 ∨ md.2 > daysIn md.1 year then
            .error (perr p layout value (strL "day out of range"))
          else .ok (Of year md.1 md.2)
      else
        let month := if month < 0 then 1 else month
        let day := if day < 0 then 1 else day
        -- Validate the day of the month.
        if day < 1 ∨ day > daysIn month year then
          .error (perr p layout value (strL "day out of range"))
        else .ok (Of year month day)



instance {e a : Type} [DecidableEq e] [DecidableEq a] : DecidableEq (Except e a)
  | .ok x, .ok y =>
    if h : x = y then isTrue (by rw [h]) else
      isFalse (fun hc => h (by injection hc))
  | .ok _, .error _ => isFalse (fun hc => Except.noConfusion hc)
  | .error _, .ok _ => isFalse (fun hc => Except.noConfusion hc)
  | .error x, .error y =>
    if h : x = y then isTrue (by rw [h]) else
      isFalse (fun hc => h (by injection hc))



/-! ### Binary and text marshaling (date.go) -/

/-- `binary.MaxVarintLen64`. -/
def MaxVarintLen64 : Nat := 10

/-- The emission loop of `binary.PutUvarint`, with explicit fuel (the value
shrinks by a factor 128 each step). Bytes
are modelled as natural numbers below 256; `byte(x) | 0x80 = 128 + x % 128`. -/
def uvarintEncAux : Nat → Nat → List Nat
  | 0, _ => []
  | fuel + 1, x =>
    if x < 128 then [x]
    else (128 + x % 128) :: uvarintEncAux fuel (x / 128)

/-- `binary.PutUvarint` (returning the written bytes). Ten fuel units
suffice for any `uint64` value, matching the `MaxVarintLen64`-byte buffer
`MarshalBinary` allocates. -/
def putUvarint (x : Nat) : List Nat := uvarintEncAux MaxVarintLen64 x

/-- `binary.PutVarint`: zig-zag encode (`ux := uint64(x) << 1`, wrapping
modulo `2^64`; complemented for negative `x`), then `PutUvarint`. -/
def PutVarint (x : Int) : List Nat :=
  let ux := (2 * (x % 18446744073709551616).toNat) % 18446744073709551616
  let ux := if x < 0 then 18446744073709551615 - ux else ux
  putUvarint ux

/-- `Date.MarshalBinary`: the day count as a `binary.Varint`. -/
def MarshalBinary (d : Date) : List Nat := PutVarint d

/-- The loop of `binary.Uvarint`: `x` and `s` accumulate the value, `i` is
the byte index; a nonpositive second component encodes failure (0:
truncated, negative: overflow). The `uint64` shifts wrap modulo `2^64`. -/
def uvarintDec : List Nat → Nat → Nat → Nat → Nat × Int
  | [], _, _, _ => (0, 0)
  | b :: rest, x, s, i =>
    if i = MaxVarintLen64 then (0, -((i : Int) + 1))
    else
      if b < 128 then
        if i = MaxVarintLen64 - 1 ∧ 1 < b then (0, -((i : Int) + 1))
        else (x ||| (b <<< s) % 18446744073709551616, (i : Int) + 1)
      else
        uvarintDec rest (x ||| ((b &&& 127) <<< s) % 18446744073709551616)
          (s + 7) (i + 1)

/-- `binary.Uvarint`. -/
def Uvarint (buf : List Nat) : Nat × Int := uvarintDec buf 0 0 0

/-- `binary.Varint`: decode the unsigned value and undo the zig-zag
(`x := int64(ux >> 1); if ux&1 != 0 { x = ^x }`). -/
def Varint (buf : List Nat) : Int × Int :=
  let r := Uvarint buf
  let x : Int := ((r.1 >>> 1 : Nat) : Int)
  let x := if r.1 &&& 1 ≠ 0 then -x - 1 else x
  (x, r.2)

/-- `Date.UnmarshalBinary` on receiver value `d0`: returns the new receiver
value and the error; the receiver is only assigned on success. (On the
64-bit platform modelled here the Go check `int64(int(v)) != v` is always
false and overflow is signalled by a negative byte count alone.) -/
def UnmarshalBinary (d0 : Date) (b : List Nat) : Date × Option (List Char) :=
  let r := Varint b
  if r.2 = 0 then (d0, some (strL "encoded date truncated"))
  else if r.2 < 0 then (d0, some (strL "encoded date overflows int"))
  else if r.2 ≠ (b.length : Int) then (d0, some (strL "extra data after date"))
  else (r.1, none)

/-- `Date.String`/`Date.MarshalText`: the RFC3339 rendering. -/
def MarshalText (d : Date) : List Char := Format d RFC3339

/-- `Date.UnmarshalText` on receiver value `d0`: parse as RFC3339; the
receiver is only assigned on success. -/
def UnmarshalText (d0 : Date) (b : List Char) : Date × Option ParseError :=
  match Parse RFC3339 b with
  | .ok v => (v, none)
  | .error e => (d0, some e)

/-- Concatenated surface text of an instruction sequence. -/
def instsText (l : List inst) : List Char :=
  l.foldr (fun i acc => instString i ++ acc) []

/-! ### Calendar arithmetic lemmas -/

theorem tmod_eq_zero_iff (x n : Int) : x.tmod n = 0 ↔ x % n = 0 := by
  constructor
  · intro h
    have h2 := Int.tdiv_add_tmod x n
    rw [h, add_zero] at h2
    exact Int.emod_eq_zero_of_dvd ⟨x.tdiv n, h2.symm⟩
  · intro h
    obtain ⟨k, hk⟩ := Int.dvd_of_emod_eq_zero h
    rw [hk, mul_comm]
    exact Int.mul_tmod_left k n

theorem isLeap_iff (year : Int) :
    isLeap year = true ↔ (year % 4 = 0 ∧ (year % 100 ≠ 0 ∨ year % 400 = 0)) := by
  simp only [isLeap, Bool.and_eq_true, Bool.or_eq_true, beq_iff_eq, bne_iff_ne,
    ne_eq, tmod_eq_zero_iff]

theorem isLeap_azY (Y : Nat) :
    isLeap ((Y : Int) + absoluteZeroYear) = leapN Y := by
  have h1 := isLeap_iff ((Y : Int) + absoluteZeroYear)
  have h2 : leapN Y = true ↔
      ((Y + 1) % 4 = 0 ∧ ((Y + 1) % 100 ≠ 0 ∨ (Y + 1) % 400 = 0)) := by
    simp only [leapN, Bool.and_eq_true, Bool.or_eq_true, beq_iff_eq, bne_iff_ne]
  have h3 : isLeap ((Y : Int) + absoluteZeroYear) = true ↔ leapN Y = true := by
    rw [h1, h2]
    unfold absoluteZeroYear
    omega
  cases hb : leapN Y
  · cases hc : isLeap ((Y : Int) + absoluteZeroYear)
    · rfl
    · rw [hb, hc] at h3
      simp at h3
  · cases hc : isLeap ((Y : Int) + absoluteZeroYear)
    · rw [hb, hc] at h3
      simp at h3
    · rfl

theorem daysIn_eq (m year : Int) : daysIn m year = dimLD (isLeap year) m := rfl

set_option maxHeartbeats 2000000 in
/-- The year/day-of-year cascade of `absDate` is the inverse of `dse`. -/
theorem absDate_false_core (a : Nat) :
    ((absDate a false).1 - absoluteZeroYear).toNat = ((absDate a false).1 - absoluteZeroYear) ∧
    (absDate a false).2.1 = 0 ∧ (absDate a false).2.2.1 = 0 ∧
    0 ≤ (absDate a false).2.2.2 ∧
    (dse ((absDate a false).1 - absoluteZeroYear).toNat : Int) + (absDate a false).2.2.2 = a ∧
    (absDate a false).2.2.2 < (yearLen ((absDate a false).1 - absoluteZeroYear).toNat : Int) := by
  simp only [absDate, Bool.not_false, if_pos]
  generalize h1 : a / 146097 = n1
  generalize hd1 : a - 146097 * n1 = d1
  generalize h2 : d1 / 36524 = n2a
  generalize h2b : n2a - n2a >>> 2 = n2
  generalize hd2 : d1 - 36524 * n2 = d2
  generalize h3 : d2 / 1461 = n3
  generalize hd3 : d2 - 1461 * n3 = d3
  generalize h4 : d3 / 365 = n4a
  generalize h4b : n4a - n4a >>> 2 = n4
  generalize hd4 : d3 - 365 * n4 = d4
  simp only [Nat.shiftRight_eq_div_pow] at h2b h4b
  have hsimp : ∀ y : Nat, ((y : Int) + absoluteZeroYear - absoluteZeroYear).toNat = y := by
    intro y
    omega
  simp only [hsimp]
  have hb1 : d1 < 146097 := by omega
  have hb2 : n2a ≤ 4 := by omega
  subst h2b
  interval_cases n2a <;>
  · have hb3 : d2 ≤ 36524 := by omega
    have hb4 : n3 ≤ 24 := by omega
    have hb5 : d3 < 1461 := by omega
    have hb6 : n4a ≤ 4 := by omega
    subst h4b
    interval_cases n4a <;>
    · refine ⟨by omega, by trivial, by trivial, by omega, ?_, ?_⟩
      · simp only [dse]
        push_cast
        omega
      · simp only [yearLen, leapN, beq_iff_eq, bne_iff_ne]
        split <;> rename_i hsp <;>
          simp only [Bool.and_eq_true, Bool.or_eq_true, beq_iff_eq, bne_iff_ne,
            decide_eq_true_eq] at hsp <;> omega

/-- `absDate _ true` is `absDate _ false` plus the `absDateFull` extraction. -/
theorem absDate_true_eq (a : Nat) :
    absDate a true = ((absDate a false).1,
      (absDateFull (absDate a false).1 (absDate a false).2.2.2).1,
      (absDateFull (absDate a false).1 (absDate a false).2.2.2).2,
      (absDate a false).2.2.2) := rfl

/-- `absDateFull` only depends on the year through its leapness. -/
theorem absDateFull_congr {y1 y2 : Int} (h : isLeap y1 = isLeap y2) (d : Int) :
    absDateFull y1 d = absDateFull y2 d := by
  simp only [absDateFull, h]

theorem isLeap_2024 : isLeap 2024 = true := by decide

theorem isLeap_2023 : isLeap 2023 = false := by decide

set_option maxRecDepth 40000 in
/-- In a leap year, `absDateFull` sends each 0-based day of the year to a
valid month/day pair packing back to it. -/
theorem absDateFull_spec_leap : ∀ yd : Fin 366,
    1 ≤ (absDateFull 2024 ((yd : Nat) : Int)).1 ∧
    (absDateFull 2024 ((yd : Nat) : Int)).1 ≤ 12 ∧
    1 ≤ (absDateFull 2024 ((yd : Nat) : Int)).2 ∧
    (absDateFull 2024 ((yd : Nat) : Int)).2 ≤
      dimLD true (absDateFull 2024 ((yd : Nat) : Int)).1 ∧
    packMD true (absDateFull 2024 ((yd : Nat) : Int)).1
      (absDateFull 2024 ((yd : Nat) : Int)).2 = ((yd : Nat) : Int) := by decide

set_option maxRecDepth 40000 in
/-- In a non-leap year, `absDateFull` sends each 0-based day of the year to a
valid month/day pair packing back to it. -/
theorem absDateFull_spec_nonleap : ∀ yd : Fin 365,
    1 ≤ (absDateFull 2023 ((yd : Nat) : Int)).1 ∧
    (absDateFull 2023 ((yd : Nat) : Int)).1 ≤ 12 ∧
    1 ≤ (absDateFull 2023 ((yd : Nat) : Int)).2 ∧
    (absDateFull 2023 ((yd : Nat) : Int)).2 ≤
      dimLD false (absDateFull 2023 ((yd : Nat) : Int)).1 ∧
    packMD false (absDateFull 2023 ((yd : Nat) : Int)).1
      (absDateFull 2023 ((yd : Nat) : Int)).2 = ((yd : Nat) : Int) := by decide

set_option maxRecDepth 40000 in
/-- In a leap year, `absDateFull` inverts the `packMD` packing of any valid
month/day pair. -/
theorem absDateFull_pack_leap : ∀ m : Fin 12, ∀ d : Fin 31,
    ((d : Nat) : Int) + 1 ≤ dimLD true (((m : Nat) : Int) + 1) →
    absDateFull 2024 (packMD true (((m : Nat) : Int) + 1) (((d : Nat) : Int) + 1)) =
      (((m : Nat) : Int) + 1, ((d : Nat) : Int) + 1) := by decide

set_option maxRecDepth 40000 in
/-- In a non-leap year, `absDateFull` inverts the `packMD` packing of any
valid month/day pair. -/
theorem absDateFull_pack_nonleap : ∀ m : Fin 12, ∀ d : Fin 31,
    ((d : Nat) : Int) + 1 ≤ dimLD false (((m : Nat) : Int) + 1) →
    absDateFull 2023 (packMD false (((m : Nat) : Int) + 1) (((d : Nat) : Int) + 1)) =
      (((m : Nat) : Int) + 1, ((d : Nat) : Int) + 1) := by decide

/-- `dse` grows by the year length at each step. -/
theorem dse_step (Y : Nat) : dse (Y + 1) = dse Y + yearLen Y := by
  simp only [dse, yearLen, leapN, beq_iff_eq, bne_iff_ne]
  split <;> rename_i hsp <;>
    simp only [Bool.and_eq_true, Bool.or_eq_true, beq_iff_eq, bne_iff_ne,
      decide_eq_true_eq] at hsp <;> omega

/-- `dse` is monotone. -/
theorem dse_mono {Y Y' : Nat} (h : Y ≤ Y') : dse Y ≤ dse Y' := by
  induction h with
  | refl => exact Nat.le_refl _
  | step hm ih =>
    rw [dse_step]
    omega

/-- The `dse`-decomposition of a day count is unique. -/
theorem dse_unique {Y r Y' r' : Nat} (h : dse Y + r = dse Y' + r')
    (hr : r < yearLen Y) (hr' : r' < yearLen Y') : Y = Y' ∧ r = r' := by
  have key : ∀ {A B : Nat}, A < B → dse A + yearLen A ≤ dse B := by
    intro A B hAB
    rw [← dse_step]
    exact dse_mono hAB
  rcases Nat.lt_trichotomy Y Y' with hc | hc | hc
  · have := key hc
    omega
  · subst hc
    omega
  · have := key hc
    omega

/-- `norm` is the identity on in-range input. -/
theorem norm_id {hi lo base : Int} (h0 : 0 ≤ lo) (hb : lo < base) :
    norm hi lo base = (hi, lo) := by
  simp only [norm]
  rw [if_neg (show ¬ lo < 0 by omega)]
  dsimp only
  rw [if_neg (show ¬ base ≤ lo by omega)]

/-- For an in-range month, `Of` is epoch days plus the `packMD` packing. -/
theorem Of_eq (year month day : Int) (hm1 : 1 ≤ month) (hm2 : month ≤ 12) :
    Of year month day =
      daysSinceEpoch year + packMD (isLeap year) month day - internalToAbsolute := by
  simp only [Of]
  rw [norm_id (by omega) (by omega)]
  dsimp only
  have hm : month - 1 + 1 = month := by omega
  rw [hm]
  simp only [packMD]
  by_cases hc : (isLeap year && decide (3 ≤ month)) = true
  · rw [if_pos hc, if_pos hc]
    ring
  · rw [if_neg hc, if_neg hc]
    ring

/-- `daysSinceEpoch` computes `dse` on year offsets. -/
theorem daysSinceEpoch_dse (Y : Nat) :
    daysSinceEpoch ((Y : Int) + absoluteZeroYear) = (dse Y : Int) := by
  simp only [daysSinceEpoch, daysPer400Years, daysPer100Years, daysPer4Years]
  have e : (Y : Int) + absoluteZeroYear - absoluteZeroYear = (Y : Int) := by ring
  rw [e]
  have h1 : (Y : Int).tdiv 400 = (Y : Int) / 400 :=
    Int.tdiv_eq_ediv (Int.natCast_nonneg Y) (by norm_num)
  rw [h1]
  have h2 : ((Y : Int) - 400 * ((Y : Int) / 400)).tdiv 100 =
      ((Y : Int) - 400 * ((Y : Int) / 400)) / 100 :=
    Int.tdiv_eq_ediv (by omega) (by norm_num)
  rw [h2]
  have h3 : ((Y : Int) - 400 * ((Y : Int) / 400) -
        100 * (((Y : Int) - 400 * ((Y : Int) / 400)) / 100)).tdiv 4 =
      ((Y : Int) - 400 * ((Y : Int) / 400) -
        100 * (((Y : Int) - 400 * ((Y : Int) / 400)) / 100)) / 4 :=
    Int.tdiv_eq_ediv (by omega) (by norm_num)
  rw [h3]
  simp only [dse]
  omega

/-- Crude growth bound for `dse`. -/
theorem dse_le (Y : Nat) : dse Y ≤ 366 * Y + 365 := by
  simp only [dse]
  omega

/-- Valid month/day pairs pack into the year range. -/
theorem packMD_bounds_fin : ∀ L : Bool, ∀ m : Fin 12, ∀ d : Fin 31,
    ((d : Nat) : Int) + 1 ≤ dimLD L (((m : Nat) : Int) + 1) →
    0 ≤ packMD L (((m : Nat) : Int) + 1) (((d : Nat) : Int) + 1) ∧
    packMD L (((m : Nat) : Int) + 1) (((d : Nat) : Int) + 1) <
      (if L then 366 else 365) := by decide

/-- Months have at most 31 days. -/
theorem dimLD_le : ∀ L : Bool, ∀ m : Fin 12, dimLD L (((m : Nat) : Int) + 1) ≤ 31 ∧
    1 ≤ dimLD L (((m : Nat) : Int) + 1) := by decide

/-- Workhorse: each day count in the `uint64` absolute window maps to a valid
triple, and `Of` maps that triple back to the day count. -/
theorem DateTriple_valid (d : Int) (h1 : -internalToAbsolute ≤ d)
    (h2 : d < wordMod - internalToAbsolute) :
    absoluteZeroYear ≤ (DateTriple d).1 ∧
    1 ≤ (DateTriple d).2.1 ∧ (DateTriple d).2.1 ≤ 12 ∧
    1 ≤ (DateTriple d).2.2 ∧
    (DateTriple d).2.2 ≤ daysIn (DateTriple d).2.1 (DateTriple d).1 ∧
    Of (DateTriple d).1 (DateTriple d).2.1 (DateTriple d).2.2 = d := by
  simp only [internalToAbsolute] at h1
  simp only [internalToAbsolute, wordMod] at h2
  have habs : Date.abs d = (d + internalToAbsolute).toNat := by
    simp only [Date.abs, internalToAbsolute, wordMod] at *
    rw [Int.emod_eq_of_lt (by omega) (by omega)]
  set a := (d + internalToAbsolute).toNat with ha
  have hacast : (a : Int) = d + internalToAbsolute := by
    simp only [ha, internalToAbsolute]
    omega
  obtain ⟨hcast, hm0, hd0, hyd0, hsum, hlt⟩ := absDate_false_core a
  set Y := ((absDate a false).1 - absoluteZeroYear).toNat with hYdef
  set ydI := (absDate a false).2.2.2 with hyddef
  have hyear : (absDate a false).1 = (Y : Int) + absoluteZeroYear := by omega
  set yd := ydI.toNat with hyd
  have hydI : ydI = ((yd : Nat) : Int) := by omega
  have hlt2 : yd < yearLen Y := by omega
  have ht : DateTriple d =
      ((Y : Int) + absoluteZeroYear,
        (absDateFull ((Y : Int) + absoluteZeroYear) ydI).1,
        (absDateFull ((Y : Int) + absoluteZeroYear) ydI).2) := by
    simp only [DateTriple, habs, ← ha]
    rw [absDate_true_eq, hyear]
  have hLp : isLeap ((Y : Int) + absoluteZeroYear) = leapN Y := isLeap_azY Y
  rw [ht]
  dsimp only
  have main : ∀ yr : Int, isLeap ((Y : Int) + absoluteZeroYear) = isLeap yr →
      (∀ z : Fin (if isLeap yr then 366 else 365),
        1 ≤ (absDateFull yr ((z : Nat) : Int)).1 ∧
        (absDateFull yr ((z : Nat) : Int)).1 ≤ 12 ∧
        1 ≤ (absDateFull yr ((z : Nat) : Int)).2 ∧
        (absDateFull yr ((z : Nat) : Int)).2 ≤
          dimLD (isLeap yr) (absDateFull yr ((z : Nat) : Int)).1 ∧
        packMD (isLeap yr) (absDateFull yr ((z : Nat) : Int)).1
          (absDateFull yr ((z : Nat) : Int)).2 = ((z : Nat) : Int)) →
      yd < (if isLeap yr then 366 else 365) →
      absoluteZeroYear ≤ (Y : Int) + absoluteZeroYear ∧
      1 ≤ (absDateFull ((Y : Int) + absoluteZeroYear) ydI).1 ∧
      (absDateFull ((Y : Int) + absoluteZeroYear) ydI).1 ≤ 12 ∧
      1 ≤ (absDateFull ((Y : Int) + absoluteZeroYear) ydI).2 ∧
      (absDateFull ((Y : Int) + absoluteZeroYear) ydI).2 ≤
        daysIn (absDateFull ((Y : Int) + absoluteZeroYear) ydI).1
          ((Y : Int) + absoluteZeroYear) ∧
      Of ((Y : Int) + absoluteZeroYear)
        (absDateFull ((Y : Int) + absoluteZeroYear) ydI).1
        (absDateFull ((Y : Int) + absoluteZeroYear) ydI).2 = d := by
    intro yr hyr hspec hydb
    have hcongr : absDateFull ((Y : Int) + absoluteZeroYear) ydI =
        absDateFull yr ((yd : Nat) : Int) := by
      rw [hydI]
      exact absDateFull_congr hyr _
    obtain ⟨s1, s2, s3, s4, s5⟩ := hspec ⟨yd, hydb⟩
    rw [hcongr]
    dsimp only at s1 s2 s3 s4 s5 ⊢
    refine ⟨by omega, s1, s2, s3, ?_, ?_⟩
    · rw [daysIn_eq, hyr]
      exact s4
    · rw [Of_eq _ _ _ s1 s2, daysSinceEpoch_dse, hyr, s5, ← hydI, hsum, hacast]
      ring
  cases hL : leapN Y
  · refine main 2023 (by rw [hLp, hL, isLeap_2023]) ?_ ?_
    · intro z
      have := absDateFull_spec_nonleap (Fin.cast (by decide) z)
      simpa [isLeap_2023, Fin.coe_cast] using this
    · have hyl : yearLen Y = 365 := by simp [yearLen, hL]
      have hif : (if isLeap 2023 = true then 366 else 365) = 365 := by decide
      omega
  · refine main 2024 (by rw [hLp, hL, isLeap_2024]) ?_ ?_
    · intro z
      have := absDateFull_spec_leap (Fin.cast (by decide) z)
      simpa [isLeap_2024, Fin.coe_cast] using this
    · have hyl : yearLen Y = 366 := by simp [yearLen, hL]
      have hif : (if isLeap 2024 = true then 366 else 365) = 366 := by decide
      omega

/-- Workhorse: `DateTriple` inverts `Of` on valid triples with the year in
the representable window. -/
theorem Of_triple_inv (year month day : Int)
    (h1 : absoluteZeroYear ≤ year) (h2 : year ≤ 50000000000000000)
    (h3 : 1 ≤ month) (h4 : month ≤ 12) (h5 : 1 ≤ day) (h6 : day ≤ daysIn month year) :
    DateTriple (Of year month day) = (year, month, day) := by
  obtain ⟨Y, hY, hYb⟩ : ∃ Y : Nat, year = (Y : Int) + absoluteZeroYear ∧
      Y ≤ 50000292277022399 := by
    refine ⟨(year - absoluteZeroYear).toNat, ?_, ?_⟩ <;>
      simp only [absoluteZeroYear] at * <;> omega
  subst hY
  have hL := isLeap_azY Y
  rw [daysIn_eq, hL] at h6
  obtain ⟨mf, hmf⟩ : ∃ mf : Fin 12, month = ((mf : Nat) : Int) + 1 := by
    refine ⟨⟨(month - 1).toNat, by omega⟩, ?_⟩
    simp only [Fin.val_mk]
    omega
  subst hmf
  have hdim := dimLD_le (leapN Y) mf
  obtain ⟨df, hdf⟩ : ∃ df : Fin 31, day = ((df : Nat) : Int) + 1 := by
    refine ⟨⟨(day - 1).toNat, by omega⟩, ?_⟩
    simp only [Fin.val_mk]
    omega
  subst hdf
  have hpb := packMD_bounds_fin (leapN Y) mf df h6
  have hOf : Of ((Y : Int) + absoluteZeroYear) (((mf : Nat) : Int) + 1)
        (((df : Nat) : Int) + 1) =
      ((dse Y : Nat) : Int) +
        packMD (leapN Y) (((mf : Nat) : Int) + 1) (((df : Nat) : Int) + 1) -
        internalToAbsolute := by
    rw [Of_eq _ _ _ (by omega) (by omega), daysSinceEpoch_dse, hL]
  obtain ⟨pkN, hpkN⟩ : ∃ pkN : Nat,
      packMD (leapN Y) (((mf : Nat) : Int) + 1) (((df : Nat) : Int) + 1) =
        (pkN : Int) := by
    refine ⟨(packMD (leapN Y) (((mf : Nat) : Int) + 1) (((df : Nat) : Int) + 1)).toNat, ?_⟩
    have := hpb.1
    omega
  rw [hpkN] at hOf hpb
  have hylen : yearLen Y ≤ 366 ∧
      ((if leapN Y = true then (366 : Int) else 365) = (yearLen Y : Int)) := by
    cases hc : leapN Y <;> simp [yearLen, hc]
  have hpkLt : pkN < yearLen Y := by
    have := hpb.2
    omega
  have habs : Date.abs (Of ((Y : Int) + absoluteZeroYear) (((mf : Nat) : Int) + 1)
      (((df : Nat) : Int) + 1)) = dse Y + pkN := by
    rw [hOf]
    simp only [Date.abs]
    have he : ((dse Y : Nat) : Int) + (pkN : Int) - internalToAbsolute + internalToAbsolute =
        ((dse Y : Nat) : Int) + (pkN : Int) := by ring
    rw [he]
    have hds := dse_le Y
    have hlt3 : ((dse Y : Nat) : Int) + (pkN : Int) < wordMod := by
      simp only [wordMod]
      omega
    rw [Int.emod_eq_of_lt (by omega) hlt3]
    omega
  obtain ⟨hcast, hm0, hd0, hyd0, hsum, hltc⟩ := absDate_false_core (dse Y + pkN)
  have hu : ((absDate (dse Y + pkN) false).1 - absoluteZeroYear).toNat = Y ∧
      (absDate (dse Y + pkN) false).2.2.2 = (pkN : Int) := by
    have h9 := @dse_unique ((absDate (dse Y + pkN) false).1 - absoluteZeroYear).toNat
      ((absDate (dse Y + pkN) false).2.2.2).toNat Y pkN
      (by omega) (by omega) hpkLt
    omega
  have ht : DateTriple (Of ((Y : Int) + absoluteZeroYear) (((mf : Nat) : Int) + 1)
      (((df : Nat) : Int) + 1)) =
      ((absDate (dse Y + pkN) false).1,
        (absDateFull (absDate (dse Y + pkN) false).1
          (absDate (dse Y + pkN) false).2.2.2).1,
        (absDateFull (absDate (dse Y + pkN) false).1
          (absDate (dse Y + pkN) false).2.2.2).2) := by
    simp only [DateTriple, habs]
    rw [absDate_true_eq]
  rw [ht]
  have hyear : (absDate (dse Y + pkN) false).1 = (Y : Int) + absoluteZeroYear := by
    omega
  rw [hyear, hu.2]
  cases hLc : leapN Y
  · have hcg : absDateFull ((Y : Int) + absoluteZeroYear) (pkN : Int) =
        absDateFull 2023 (pkN : Int) :=
      absDateFull_congr (by rw [hL, hLc, isLeap_2023]) _
    rw [hcg]
    rw [hLc] at hpkN h6
    have hpk := absDateFull_pack_nonleap mf df h6
    rw [← hpkN, hpk]
  · have hcg : absDateFull ((Y : Int) + absoluteZeroYear) (pkN : Int) =
        absDateFull 2024 (pkN : Int) :=
      absDateFull_congr (by rw [hL, hLc, isLeap_2024]) _
    rw [hcg]
    rw [hLc] at hpkN h6
    have hpk := absDateFull_pack_leap mf df h6
    rw [← hpkN, hpk]

/-- Dates with year between 0 and 9999 are exactly the day counts in
`[Of 0 1 1, Of 9999 12 31] = [-366, 3652058]`. -/
theorem DateTriple_year_window (d : Int) (h1 : -366 ≤ d) (h2 : d ≤ 3652058) :
    0 ≤ (DateTriple d).1 ∧ (DateTriple d).1 ≤ 9999 := by
  have hita : internalToAbsolute = 106751990353932 := rfl
  have hazy : absoluteZeroYear = -292277022399 := rfl
  have habs : Date.abs d = (d + internalToAbsolute).toNat := by
    simp only [Date.abs, internalToAbsolute, wordMod] at *
    rw [Int.emod_eq_of_lt (by omega) (by omega)]
  obtain ⟨hcast, hm0, hd0, hyd0, hsum, hltc⟩ :=
    absDate_false_core ((d + internalToAbsolute).toNat)
  have hacast : ((d + internalToAbsolute).toNat : Int) = d + internalToAbsolute := by
    omega
  have hdse1 : dse 292277022399 = 106751990353566 := by decide
  have hdse2 : dse 292277032399 = 106751994005991 := by decide
  have htr : (DateTriple d).1 =
      (absDate ((d + internalToAbsolute).toNat) false).1 := by
    simp only [DateTriple, habs]
    rw [absDate_true_eq]
  rw [htr]
  set Y' := ((absDate ((d + internalToAbsolute).toNat) false).1 - absoluteZeroYear).toNat
    with hY'
  have hlo : ¬ Y' < 292277022399 := by
    intro hc
    have hst := dse_step Y'
    have hmo := dse_mono (show Y' + 1 ≤ 292277022399 by omega)
    omega
  have hhi : ¬ 292277032399 ≤ Y' := by
    intro hc
    have hmo := dse_mono hc
    omega
  omega

/-- C1 counterexample: for the valid triple (year, month, day) =
(-292277022400, 12, 31) — one year below `absoluteZeroYear` — converting to a
`Date` with `Of` and back with `Date.Date` does not return the same triple
(the code documents that dates before `absoluteZeroYear` do not compute
correctly). -/
theorem c1_of_date_counterexample :
    (1 : Int) ≤ 12 ∧ (12 : Int) ≤ 12 ∧ (1 : Int) ≤ 31 ∧
    (31 : Int) ≤ daysIn 12 (-292277022400) ∧
    DateTriple (Of (-292277022400) 12 31) ≠
      ((-292277022400 : Int), (12 : Int), (31 : Int)) := by decide

/-- C1 (amended): for every year in `[absoluteZeroYear, 5·10^16]`, month in
`[1, 12]` and day in `[1, daysInMonth]`, `Of` followed by `Date.Date` returns
the same triple; on every day count whose absolute day number fits in
`uint64` (`-internalToAbsolute ≤ d < 2^64 - internalToAbsolute`, which covers
all day counts from `absoluteZeroYear` on), `Of` is a left inverse of
`Date.Date`, so the day-count-to-triple conversion is a bijection onto the
valid triples in that window. -/
theorem c1_of_date_roundtrip :
    (∀ year month day : Int, absoluteZeroYear ≤ year → year ≤ 50000000000000000 →
      1 ≤ month → month ≤ 12 → 1 ≤ day → day ≤ daysIn month year →
      DateTriple (Of year month day) = (year, month, day)) ∧
    (∀ d : Date, -internalToAbsolute ≤ d → d < wordMod - internalToAbsolute →
      Of (DateTriple d).1 (DateTriple d).2.1 (DateTriple d).2.2 = d) ∧
    (∀ d1 d2 : Date, -internalToAbsolute ≤ d1 → d1 < wordMod - internalToAbsolute →
      -internalToAbsolute ≤ d2 → d2 < wordMod - internalToAbsolute →
      DateTriple d1 = DateTriple d2 → d1 = d2) := by
  refine ⟨Of_triple_inv, fun d ha hb => (DateTriple_valid d ha hb).2.2.2.2.2, ?_⟩
  intro d1 d2 ha hb hc hd he
  have e1 := (DateTriple_valid d1 ha hb).2.2.2.2.2
  have e2 := (DateTriple_valid d2 hc hd).2.2.2.2.2
  rw [← e1, ← e2, he]

/-- C1 witness: the round trip at the concrete triple (2023, 7, 14) and the
concrete day count 738714. -/
theorem c1_of_date_roundtrip_witness :
    DateTriple (Of 2023 7 14) = (2023, 7, 14) ∧
    Of (DateTriple 738714).1 (DateTriple 738714).2.1 (DateTriple 738714).2.2 = 738714 :=
  ⟨c1_of_date_roundtrip.1 2023 7 14 (by decide) (by decide) (by decide) (by decide)
      (by decide) (by decide),
    c1_of_date_roundtrip.2.1 738714 (by decide) (by decide)⟩

/-- C7: `Of` normalizes out-of-range months and days by carrying into
adjacent months/years: `Of 2023 12 40 = Of 2024 1 9`,
`Of 1 1 0 = Of 0 12 31`, and `Of 1957 96 104 = Of 1964 12 104`, the latter
two both equal to day count 717408. -/
theorem c7_of_normalizes :
    Of 2023 12 40 = Of 2024 1 9 ∧
    Of 1 1 0 = Of 0 12 31 ∧
    Of 1957 96 104 = Of 1964 12 104 ∧
    Of 1957 96 104 = 717408 ∧ Of 1964 12 104 = 717408 := by decide

set_option maxRecDepth 40000 in
/-- C4: weekday-name tokens (long and short) are matched case-insensitively
and consumed, but their value is discarded: Parse succeeds for every written
weekday name even though 2024-02-25 is a Sunday, and the returned Date's
recomputed weekday is Sunday (0). -/
theorem c4_weekday_ignored :
    (∀ w : Fin 7, Parse (strL "Monday 2006-01-02")
        (longDayNames.getD (w : Nat) [] ++ strL " 2024-02-25") =
      .ok (Of 2024 2 25)) ∧
    (∀ w : Fin 7, Parse (strL "Mon 2006-01-02")
        (shortDayNames.getD (w : Nat) [] ++ strL " 2024-02-25") =
      .ok (Of 2024 2 25)) ∧
    Parse (strL "Monday 2006-01-02") (strL "FrIdAy 2024-02-25") =
      .ok (Of 2024 2 25) ∧
    DateWeekday (Of 2024 2 25) = 0 := by decide

set_option maxRecDepth 100000 in
/-- C5: a 2-digit-year token consumes exactly 2 digits and applies the
century rule: value `v ≥ 69` gives year `1900 + v`, `v < 69` gives
`2000 + v`; in particular "69" parses to 1969 and "68" to 2068; a 1-digit
input fails, and a third digit is left over as extra text. -/
theorem c5_century_rule :
    (∀ v : Fin 100, Parse (strL "06")
        [digitChar ((v : Nat) / 10), digitChar ((v : Nat) % 10)] =
      .ok (Of (if 69 ≤ (v : Nat) then 1900 + ((v : Nat) : Int)
               else 2000 + ((v : Nat) : Int)) 1 1)) ∧
    Parse (strL "06") (strL "69") = .ok (Of 1969 1 1) ∧
    Parse (strL "06") (strL "68") = .ok (Of 2068 1 1) ∧
    (Parse (strL "06") (strL "1")).toOption = none ∧
    Parse (strL "06") (strL "691") =
      .error { Layout := strL "06", Value := strL "691", LayoutElem := [],
               ValueElem := [],
               Message := strL "extra text: " ++ quoteGo (strL "1") } := by decide

set_option maxRecDepth 100000 in
/-- C6: a numeric month value outside [1,12] fails with the semantic
ParseError message "month out of range" (no layout/value element), while a
syntactic mismatch (here: the literal "-" against "x10-25") carries the
failing layout element and input fragment and no message. -/
theorem c6_month_out_of_range :
    (∀ m : Fin 100, Parse RFC3339
        (strL "2024-" ++ [digitChar ((m : Nat) / 10), digitChar ((m : Nat) % 10)] ++
          strL "-01") =
      if 1 ≤ (m : Nat) ∧ (m : Nat) ≤ 12 then .ok (Of 2024 ((m : Nat) : Int) 1)
      else .error { Layout := RFC3339,
                    Value := (strL "2024-" ++
                      [digitChar ((m : Nat) / 10), digitChar ((m : Nat) % 10)] ++
                      strL "-01"),
                    LayoutElem := ([] : List Char),
                    ValueElem := ([] : List Char),
                    Message := strL "month out of range" }) ∧
    Parse RFC3339 (strL "2024x10-25") =
      .error { Layout := RFC3339, Value := strL "2024x10-25",
               LayoutElem := strL "-", ValueElem := strL "x10-25",
               Message := [] } := by decide

/-! ### Digit formatting and parsing lemmas -/

theorem digit_facts (k : Nat) (h : k < 10) :
    isDigitC (digitChar k) = true ∧ ((digitChar k).toNat : Int) - 48 = (k : Int) ∧
    digitChar k ≠ '+' ∧ digitChar k ≠ '-' ∧ digitChar k ≠ ' ' := by
  interval_cases k <;> exact ⟨by decide, by decide, by decide, by decide, by decide⟩

theorem decDigitsAux_congr (n : Nat) : ∀ f f' : Nat, n < f → n < f' →
    decDigitsAux f n = decDigitsAux f' n := by
  induction n using Nat.strong_induction_on with
  | _ n ih =>
    intro f f' hf hf'
    match f, f' with
    | fuel1 + 1, fuel2 + 1 =>
      simp only [decDigitsAux]
      split
      · rfl
      · rw [ih (n / 10) (by omega) fuel1 fuel2 (by omega) (by omega)]

theorem decDigits_small (n : Nat) (h : n < 10) : decDigits n = [digitChar n] := by
  simp [decDigits, decDigitsAux, h]

theorem decDigits_step (n : Nat) (h : 10 ≤ n) :
    decDigits n = decDigits (n / 10) ++ [digitChar (n % 10)] := by
  rw [decDigits, decDigits]
  conv =>
    lhs
    rw [decDigitsAux]
  rw [if_neg (by omega)]
  rw [decDigitsAux_congr (n / 10) n (n / 10 + 1) (by omega) (by omega)]

theorem decDigits2 (n : Nat) (h1 : 10 ≤ n) (h2 : n < 100) :
    decDigits n = [digitChar (n / 10), digitChar (n % 10)] := by
  rw [decDigits_step n h1, decDigits_small (n / 10) (by omega)]
  rfl

theorem decDigits3 (n : Nat) (h1 : 100 ≤ n) (h2 : n < 1000) :
    decDigits n = [digitChar (n / 100), digitChar (n / 10 % 10), digitChar (n % 10)] := by
  rw [decDigits_step n (by omega), decDigits2 (n / 10) (by omega) (by omega)]
  rw [show n / 10 / 10 = n / 100 by omega, show n / 10 % 10 = n / 10 % 10 from rfl]
  simp

theorem decDigits4 (n : Nat) (h1 : 1000 ≤ n) (h2 : n < 10000) :
    decDigits n = [digitChar (n / 1000), digitChar (n / 100 % 10),
      digitChar (n / 10 % 10), digitChar (n % 10)] := by
  rw [decDigits_step n (by omega), decDigits3 (n / 10) (by omega) (by omega)]
  rw [show n / 10 / 100 = n / 1000 by omega, show n / 10 / 10 % 10 = n / 100 % 10 by omega]
  simp

/-- The four-digit zero-padded year text of `opLongYear`, uniformly. -/
theorem fmtLongYearAbs4 (y : Int) (h0 : 0 ≤ y) (h4 : y < 10000) :
    appendInst.fmtLongYearAbs y = [digitChar (y.toNat / 1000),
      digitChar (y.toNat / 100 % 10), digitChar (y.toNat / 10 % 10),
      digitChar (y.toNat % 10)] := by
  have hd : appendIntDec y = decDigits y.toNat := by
    simp [appendIntDec, show ¬ y < 0 by omega]
  rcases (show y < 10 ∨ (10 ≤ y ∧ y < 100) ∨ (100 ≤ y ∧ y < 1000) ∨ 1000 ≤ y by omega)
    with h | ⟨ha, hb⟩ | ⟨ha, hb⟩ | h
  · simp only [appendInst.fmtLongYearAbs, hd, if_pos (show y < 1000 by omega),
      if_pos (show y < 100 by omega), if_pos h,
      decDigits_small y.toNat (by omega)]
    rw [show y.toNat / 1000 = 0 by omega, show y.toNat / 100 % 10 = 0 by omega,
      show y.toNat / 10 % 10 = 0 by omega, show y.toNat % 10 = y.toNat by omega]
    rfl
  · simp only [appendInst.fmtLongYearAbs, hd, if_pos (show y < 1000 by omega),
      if_pos (show y < 100 by omega), if_neg (show ¬ y < 10 by omega),
      decDigits2 y.toNat (by omega) (by omega)]
    rw [show y.toNat / 1000 = 0 by omega, show y.toNat / 100 % 10 = 0 by omega,
      show y.toNat / 10 % 10 = y.toNat / 10 by omega]
    rfl
  · simp only [appendInst.fmtLongYearAbs, hd, if_pos (show y < 1000 by omega),
      if_neg (show ¬ y < 100 by omega), if_neg (show ¬ y < 10 by omega),
      decDigits3 y.toNat (by omega) (by omega)]
    rw [show y.toNat / 1000 = 0 by omega, show y.toNat / 100 % 10 = y.toNat / 100 by omega]
    rfl
  · simp only [appendInst.fmtLongYearAbs, hd, if_neg (show ¬ y < 1000 by omega),
      if_neg (show ¬ y < 100 by omega), if_neg (show ¬ y < 10 by omega),
      decDigits4 y.toNat (by omega) (by omega)]
    rfl

/-- The two-digit zero-padded month/day text of `opZeroMonth`/`opZeroDay`,
uniformly. -/
theorem zeroPad2 (v : Int) (h0 : 1 ≤ v) (h : v < 100) :
    (if v < 10 then ['0'] else []) ++ appendIntDec v =
      [digitChar (v.toNat / 10), digitChar (v.toNat % 10)] := by
  have hd : appendIntDec v = decDigits v.toNat := by
    simp [appendIntDec, show ¬ v < 0 by omega]
  rcases (show v < 10 ∨ 10 ≤ v by omega) with hc | hc
  · simp only [hd, if_pos hc, decDigits_small v.toNat (by omega)]
    rw [show v.toNat / 10 = 0 by omega, show v.toNat % 10 = v.toNat by omega]
    rfl
  · simp only [hd, if_neg (show ¬ v < 10 by omega),
      decDigits2 v.toNat (by omega) (by omega)]
    rfl

theorem c3_general (y : Nat) (hy : y ≤ 9999) :
    Parse (strL "2006 __2")
      ([digitChar (y / 1000), digitChar (y / 100 % 10), digitChar (y / 10 % 10),
        digitChar (y % 10)] ++ strL " 366") =
      if isLeap (y : Int) then .ok (Of (y : Int) 12 31)
      else .error { Layout := strL "2006 __2",
                    Value := ([digitChar (y / 1000), digitChar (y / 100 % 10),
                      digitChar (y / 10 % 10), digitChar (y % 10)] ++ strL " 366"),
                    LayoutElem := [], ValueElem := [],
                    Message := strL "day-of-year out of range" } := by
  obtain ⟨f1a, f1b, f1c, f1d, f1e⟩ := digit_facts (y / 1000) (by omega)
  obtain ⟨f2a, f2b, f2c, f2d, f2e⟩ := digit_facts (y / 100 % 10) (by omega)
  obtain ⟨f3a, f3b, f3c, f3d, f3e⟩ := digit_facts (y / 10 % 10) (by omega)
  obtain ⟨f4a, f4b, f4c, f4d, f4e⟩ := digit_facts (y % 10) (by omega)
  generalize hc1 : digitChar (y / 1000) = c1 at *
  generalize hc2 : digitChar (y / 100 % 10) = c2 at *
  generalize hc3 : digitChar (y / 10 % 10) = c3 at *
  generalize hc4 : digitChar (y % 10) = c4 at *
  have hprog : parseLayout (strL "2006 __2") =
      [⟨opLongYear, []⟩, ⟨opLiteral, [' ']⟩, ⟨opUnderYearDay, []⟩] := by decide
  have hsl : strL " 366" = ' ' :: '3' :: '6' :: '6' :: [] := rfl
  simp only [Parse, newParser, hprog, hsl, List.cons_append, List.nil_append]
  have g3 : isDigitC '3' = true := rfl
  have g6 : isDigitC '6' = true := rfl
  have hyE : ((((0 : Int) * 10 + ((y : Nat) / 1000 : Nat)) * 10 +
      ((y : Nat) / 100 % 10 : Nat)) * 10 + ((y : Nat) / 10 % 10 : Nat)) * 10 +
      ((y : Nat) % 10 : Nat) = (y : Int) := by
    push_cast
    omega
  simp [runInsts, setInst, peekDigit, atoi, Atoi, atoiDigits, accept, acceptF,
    trimByte, trimRun, trimLeftSpaces, skipByte, num3, getnumN, digiLoop,
    f1a, f2a, f3a, f4a, f1b, f2b, f3b, f4b, f1d, f2d, f3d, f4d, f1c, f2c, f3c, f4c,
    f1e, f2e, f3e, f4e, g3, g6, hyE]
  have hE : ((((y : Int) / 1000 * 10 + (y : Int) / 100 % 10) * 10 +
      (y : Int) / 10 % 10) * 10 + (y : Int) % 10) = (y : Int) := by omega
  rw [hE]
  cases hL : isLeap (y : Int) <;>
    simp [hL, daysIn, daysBefore, perr, finish, instString,
      show ((365 : Int) - 1).tdiv 31 = 11 from by decide,
      show ((364 : Int)).tdiv 31 = 11 from by decide]
  exact fun h => absurd h (by decide)

/-- C3: parsing a day-of-year of 366 succeeds exactly for leap years
(yielding December 31) and otherwise fails with "day-of-year out of range";
explicitly parsed month/day must match the day-of-year-derived ones or
parsing fails with the corresponding mismatch message. -/
theorem c3_day_of_year :
    (∀ y : Nat, y ≤ 9999 →
      Parse (strL "2006 __2")
        ([digitChar (y / 1000), digitChar (y / 100 % 10), digitChar (y / 10 % 10),
          digitChar (y % 10)] ++ strL " 366") =
        if isLeap (y : Int) then .ok (Of (y : Int) 12 31)
        else .error { Layout := strL "2006 __2",
                      Value := ([digitChar (y / 1000), digitChar (y / 100 % 10),
                        digitChar (y / 10 % 10), digitChar (y % 10)] ++ strL " 366"),
                      LayoutElem := [], ValueElem := [],
                      Message := strL "day-of-year out of range" }) ∧
    Parse (strL "2006 __2") (strL "2024 366") = .ok (Of 2024 12 31) ∧
    Parse (strL "2006 __2") (strL "2023 366") =
      .error { Layout := strL "2006 __2", Value := strL "2023 366",
               LayoutElem := [], ValueElem := [],
               Message := strL "day-of-year out of range" } ∧
    Parse (strL "2006-01-02 002") (strL "2023-10-25 298") = .ok (Of 2023 10 25) ∧
    Parse (strL "2006-01-02 002") (strL "2023-10-25 100") =
      .error { Layout := strL "2006-01-02 002", Value := strL "2023-10-25 100",
               LayoutElem := [], ValueElem := [],
               Message := strL "day-of-year does not match month" } ∧
    Parse (strL "2006-01-02 002") (strL "2023-10-24 298") =
      .error { Layout := strL "2006-01-02 002", Value := strL "2023-10-24 298",
               LayoutElem := [], ValueElem := [],
               Message := strL "day-of-year does not match day" } :=
  ⟨c3_general, by decide, by decide, by decide, by decide, by decide⟩

/-- C3 witness: the general part applied at year 2024 ("2024 366" parses to
2024-12-31). -/
theorem c3_day_of_year_witness :
    Parse (strL "2006 __2") (strL "2024 366") = .ok (Of 2024 12 31) := by
  have h := c3_day_of_year.1 2024 (by decide)
  simpa using h

/-- Variant of `zeroPad2` matching the left-nested append shape that
`AppendFormat`'s fold produces. -/
theorem zeroPad2L (b : List Char) (v : Int) (h0 : 1 ≤ v) (h : v < 100) :
    (b ++ (if v < 10 then ['0'] else [])) ++ appendIntDec v =
      b ++ [digitChar (v.toNat / 10), digitChar (v.toNat % 10)] := by
  rw [List.append_assoc, zeroPad2 v h0 h]

theorem daysIn_le31 (m yr : Int) (hm1 : 1 ≤ m) (hm2 : m ≤ 12) :
    daysIn m yr ≤ 31 ∧ 1 ≤ daysIn m yr := by
  rw [daysIn_eq]
  obtain ⟨mf, hmf⟩ : ∃ mf : Fin 12, m = ((mf : Nat) : Int) + 1 := by
    refine ⟨⟨(m - 1).toNat, by omega⟩, ?_⟩
    simp only [Fin.val_mk]
    omega
  rw [hmf]
  exact ⟨(dimLD_le _ mf).1, (dimLD_le _ mf).2⟩

theorem c2_roundtrip (d : Int) (h1 : -366 ≤ d) (h2 : d ≤ 3652058) :
    Parse RFC3339 (Format d RFC3339) = .ok d := by
  have hita : internalToAbsolute = 106751990353932 := rfl
  have hwm : wordMod = 18446744073709551616 := rfl
  obtain ⟨hy0, hy1⟩ := DateTriple_year_window d h1 h2
  obtain ⟨hvy, hm1, hm2, hd1, hd2, hOf⟩ := DateTriple_valid d (by omega) (by omega)
  set year := (DateTriple d).1 with hyear
  set month := (DateTriple d).2.1 with hmonth
  set day := (DateTriple d).2.2 with hday
  have hd31 := daysIn_le31 month year hm1 hm2
  have hdle : day ≤ 31 := by omega
  have hYcast : ((year.toNat : Nat) : Int) = year := by omega
  have hMcast : ((month.toNat : Nat) : Int) = month := by omega
  have hDcast : ((day.toNat : Nat) : Int) = day := by omega
  have hay : (absDate (Date.abs d) true).1 = year := rfl
  have ham : (absDate (Date.abs d) true).2.1 = month := rfl
  have had : (absDate (Date.abs d) true).2.2.1 = day := rfl
  have hprog : parseLayout RFC3339 =
      [⟨opLongYear, []⟩, ⟨opLiteral, ['-']⟩, ⟨opZeroMonth, []⟩,
       ⟨opLiteral, ['-']⟩, ⟨opZeroDay, []⟩] := by decide
  have hfmt : Format d RFC3339 =
      [digitChar (year.toNat / 1000), digitChar (year.toNat / 100 % 10),
       digitChar (year.toNat / 10 % 10), digitChar (year.toNat % 10), '-',
       digitChar (month.toNat / 10), digitChar (month.toNat % 10), '-',
       digitChar (day.toNat / 10), digitChar (day.toNat % 10)] := by
    unfold Format AppendFormat
    rw [hprog]
    simp only [List.foldl, appendInst, hay, ham, had]
    rw [if_neg (show ¬ year < 0 by omega)]
    rw [fmtLongYearAbs4 year (by omega) (by omega)]
    rw [zeroPad2L _ month hm1 (by omega), zeroPad2L _ day hd1 (by omega)]
    simp
  rw [hfmt]
  obtain ⟨f1a, f1b, f1c, f1d, f1e⟩ := digit_facts (year.toNat / 1000) (by omega)
  obtain ⟨f2a, f2b, f2c, f2d, f2e⟩ := digit_facts (year.toNat / 100 % 10) (by omega)
  obtain ⟨f3a, f3b, f3c, f3d, f3e⟩ := digit_facts (year.toNat / 10 % 10) (by omega)
  obtain ⟨f4a, f4b, f4c, f4d, f4e⟩ := digit_facts (year.toNat % 10) (by omega)
  obtain ⟨f5a, f5b, f5c, f5d, f5e⟩ := digit_facts (month.toNat / 10) (by omega)
  obtain ⟨f6a, f6b, f6c, f6d, f6e⟩ := digit_facts (month.toNat % 10) (by omega)
  obtain ⟨f7a, f7b, f7c, f7d, f7e⟩ := digit_facts (day.toNat / 10) (by omega)
  obtain ⟨f8a, f8b, f8c, f8d, f8e⟩ := digit_facts (day.toNat % 10) (by omega)
  generalize hc1 : digitChar (year.toNat / 1000) = c1 at *
  generalize hc2 : digitChar (year.toNat / 100 % 10) = c2 at *
  generalize hc3 : digitChar (year.toNat / 10 % 10) = c3 at *
  generalize hc4 : digitChar (year.toNat % 10) = c4 at *
  generalize hc5 : digitChar (month.toNat / 10) = c5 at *
  generalize hc6 : digitChar (month.toNat % 10) = c6 at *
  generalize hc7 : digitChar (day.toNat / 10) = c7 at *
  generalize hc8 : digitChar (day.toNat % 10) = c8 at *
  have hEy : ((year / 1000 * 10 + year / 100 % 10) * 10 + year / 10 % 10) * 10 +
      year % 10 = year := by omega
  have hEm : month / 10 * 10 + month % 10 = month := by omega
  have hEd : day / 10 * 10 + day % 10 = day := by omega
  have hmF : (month ≤ 0 ∨ 12 < month) = False := by
    simp only [eq_iff_iff, iff_false]
    omega
  have hmF2 : (month < 0) = False := by
    simp only [eq_iff_iff, iff_false]
    omega
  have hdF2 : (day < 0) = False := by
    simp only [eq_iff_iff, iff_false]
    omega
  have hdF : (day < 1 ∨ daysIn month year < day) = False := by
    simp only [eq_iff_iff, iff_false]
    omega
  simp only [Parse, newParser]
  rw [hprog]
  simp [runInsts, setInst, peekDigit, atoi, Atoi, hEy, hEm, hEd, hmF, hmF2,
    hdF2, hdF, hOf,
    atoiDigits, accept, acceptF, trimByte, trimRun, trimLeftSpaces, skipByte,
    num, getnumN, digiLoop,
    f1a, f2a, f3a, f4a, f5a, f6a, f7a, f8a,
    f1b, f2b, f3b, f4b, f5b, f6b, f7b, f8b,
    f1c, f2c, f3c, f4c, f5c, f6c, f7c, f8c,
    f1d, f2d, f3d, f4d, f5d, f6d, f7d, f8d,
    f1e, f2e, f3e, f4e, f5e, f6e, f7e, f8e,
    hYcast, hMcast, hDcast]

/-- C2 counterexample: for the negative-year date `Of (-1) 1 1`, `Format`
emits "-0001-01-01" but `Parse` rejects the leading minus (the 4-digit-year
token requires a digit first), so the round trip fails with a syntactic
error naming the "2006" element. -/
theorem c2_format_parse_counterexample :
    Parse RFC3339 (Format (Of (-1) 1 1) RFC3339) =
      .error { Layout := RFC3339, Value := strL "-0001-01-01",
               LayoutElem := strL "2006", ValueElem := strL "-0001-01-01",
               Message := [] } := by decide

/-- C2 (amended): for every Date whose year lies in 0…9999 — the day counts
in `[Of 0 1 1, Of 9999 12 31] = [-366, 3652058]` — parsing the RFC3339
rendering returns the same Date. -/
theorem c2_format_parse_roundtrip :
    (∀ d : Date, Of 0 1 1 ≤ d → d ≤ Of 9999 12 31 →
      Parse RFC3339 (Format d RFC3339) = .ok d) ∧
    Of 0 1 1 = -366 ∧ Of 9999 12 31 = 3652058 := by
  have e1 : Of 0 1 1 = -366 := by decide
  have e2 : Of 9999 12 31 = 3652058 := by decide
  refine ⟨?_, e1, e2⟩
  intro d hd1 hd2
  rw [e1] at hd1
  rw [e2] at hd2
  exact c2_roundtrip d hd1 hd2

/-- C2 witness: the round trip at the concrete day count 738714
(2023-07-14). -/
theorem c2_format_parse_roundtrip_witness :
    Parse RFC3339 (Format 738714 RFC3339) = .ok 738714 :=
  c2_format_parse_roundtrip.1 738714 (by decide) (by decide)

/-! ### Layout compiler lemmas (C8) -/

theorem cutPre_sound : ∀ (q s r : List Char), cutPre s q = some r → q ++ r = s := by
  intro q
  induction q with
  | nil =>
    intro s r h
    simp only [cutPre] at h
    simpa using h.symm
  | cons c qs ih =>
    intro s r h
    match s with
    | [] => simp [cutPre] at h
    | x :: xs =>
      simp only [cutPre] at h
      by_cases hx : x = c
      · subst hx
        rw [if_pos rfl] at h
        simpa using ih xs r h
      · rw [if_neg hx] at h
        exact absurd h (by simp)

theorem opString_ne_nil (op : fmtOp) (h : op ≠ opLiteral) (h2 : op ≠ opInvalid) :
    opString op ≠ [] := by
  cases op <;> simp_all [opString] <;> decide

theorem tryOps_sound : ∀ (ops : List fmtOp) (s : List Char) (op : fmtOp)
    (suf : List Char), tryOps ops s = some (op, suf) →
    opString op ++ suf = s ∧ op ∈ ops := by
  intro ops
  induction ops with
  | nil =>
    intro s op suf h
    simp [tryOps] at h
  | cons o os ih =>
    intro s op suf h
    simp only [tryOps] at h
    match hcut : cutPre s (opString o) with
    | some rest =>
      rw [hcut] at h
      dsimp only at h
      by_cases hw : (endsWord o && startsWithLowerCase rest) = true
      · rw [if_pos hw] at h
        obtain ⟨ha, hb⟩ := ih s op suf h
        exact ⟨ha, by simp [hb]⟩
      · rw [if_neg hw] at h
        have h1 : o = op ∧ rest = suf := by simpa using h
        obtain ⟨rfl, rfl⟩ := h1
        exact ⟨cutPre_sound _ _ _ hcut, by simp⟩
    | none =>
      rw [hcut] at h
      dsimp only at h
      obtain ⟨ha, hb⟩ := ih s op suf h
      exact ⟨ha, by simp [hb]⟩

theorem nextOp_sound : ∀ layout : List Char,
    ((nextOp layout).2.1 = opLiteral →
      (nextOp layout).1 = layout ∧ (nextOp layout).2.2 = []) ∧
    ((nextOp layout).2.1 ≠ opLiteral →
      (nextOp layout).1 ++ opString (nextOp layout).2.1 ++ (nextOp layout).2.2 =
        layout ∧ (nextOp layout).2.1 ≠ opInvalid) := by
  intro layout
  induction layout with
  | nil => exact ⟨fun _ => ⟨rfl, rfl⟩, fun h => absurd rfl h⟩
  | cons c rest ih =>
    simp only [nextOp]
    match htry : tryOps opsInOrder (c :: rest) with
    | some (op, suf) =>
      obtain ⟨ha, hmem⟩ := tryOps_sound _ _ _ _ htry
      have hopl : op ≠ opLiteral := by
        intro hc
        subst hc
        exact absurd hmem (by decide)
      have hopi : op ≠ opInvalid := by
        intro hc
        subst hc
        exact absurd hmem (by decide)
      exact ⟨fun h => absurd h hopl, fun _ => ⟨by simpa using ha, hopi⟩⟩
    | none =>
      constructor
      · intro h
        simp only at h
        obtain ⟨ha, hb⟩ := ih.1 h
        simp [ha, hb]
      · intro h
        simp only at h
        obtain ⟨ha, hb⟩ := ih.2 h
        refine ⟨?_, hb⟩
        simp only [List.cons_append, List.append_assoc] at ha ⊢
        simp [ha]

theorem parseLayoutF_nil (f : Nat) : parseLayoutF f [] = [] := by
  cases f <;> simp [parseLayoutF]

theorem instsText_append (l1 l2 : List inst) :
    instsText (l1 ++ l2) = instsText l1 ++ instsText l2 := by
  induction l1 with
  | nil => simp [instsText]
  | cons i l ih =>
    simp only [instsText, List.foldr_cons, List.cons_append] at ih ⊢
    simp [ih]

theorem parseLayoutF_concat : ∀ (fuel : Nat) (layout : List Char),
    layout.length ≤ fuel → instsText (parseLayoutF fuel layout) = layout := by
  intro fuel
  induction fuel with
  | zero =>
    intro layout h
    have : layout = [] := by
      cases layout
      · rfl
      · simp at h
    subst this
    rfl
  | succ fuel ih =>
    intro layout h
    by_cases hl : layout = []
    · subst hl
      rfl
    · simp only [parseLayoutF, if_neg hl]
      by_cases hop : (nextOp layout).2.1 = opLiteral
      · obtain ⟨hp, hs⟩ := (nextOp_sound layout).1 hop
        rw [if_pos hop, hs, parseLayoutF_nil, hp, if_neg hl]
        simp [instsText, instString]
      · obtain ⟨ha, hinv⟩ := (nextOp_sound layout).2 hop
        have hne := opString_ne_nil _ hop hinv
        have hlen : (nextOp layout).2.2.length ≤ fuel := by
          have := congrArg List.length ha
          simp only [List.length_append] at this
          have h1 : 1 ≤ (opString (nextOp layout).2.1).length := by
            cases hq : opString (nextOp layout).2.1
            · exact absurd hq hne
            · simp
          omega
        rw [if_neg hop]
        rw [instsText_append, instsText_append, ih _ hlen]
        have h2 : instsText [(⟨(nextOp layout).2.1, []⟩ : inst)] =
            opString (nextOp layout).2.1 := by
          simp only [instsText, List.foldr_cons, List.foldr_nil, List.append_nil,
            instString]
          rw [if_neg (by simpa using hop)]
        rw [h2]
        by_cases hpre : (nextOp layout).1 = []
        · rw [if_pos hpre]
          rw [hpre] at ha
          simpa using ha
        · rw [if_neg hpre]
          have h3 : instsText [(⟨opLiteral, (nextOp layout).1⟩ : inst)] =
              (nextOp layout).1 := by
            simp [instsText, instString]
          rw [h3]
          simpa using ha

theorem nextOp_noops : ∀ layout : List Char,
    (∀ i, i < layout.length → tryOps opsInOrder (layout.drop i) = none) →
    nextOp layout = (layout, opLiteral, []) := by
  intro layout
  induction layout with
  | nil => exact fun _ => rfl
  | cons c rest ih =>
    intro h
    have h0 := h 0 (by simp)
    simp only [List.drop] at h0
    simp only [nextOp, h0]
    have hr := ih (fun i hi => by
      have := h (i + 1) (by simpa using hi)
      simpa using this)
    rw [hr]

/-- C8: layout compilation is total, and concatenating each instruction's
surface text (the literal's text for literals, the operator token otherwise)
reproduces the layout exactly; a layout with no recognized operator at any
position compiles to a single literal instruction. -/
theorem c8_parse_layout :
    (∀ layout : List Char, instsText (parseLayout layout) = layout) ∧
    (∀ layout : List Char, layout ≠ [] →
      (∀ i, i < layout.length → tryOps opsInOrder (layout.drop i) = none) →
      parseLayout layout = [⟨opLiteral, layout⟩]) := by
  constructor
  · intro layout
    exact parseLayoutF_concat layout.length layout (Nat.le_refl _)
  · intro layout hne hno
    have hn := nextOp_noops layout hno
    match hl : layout with
    | [] => exact absurd rfl hne
    | c :: rest =>
      simp only [parseLayout, List.length_cons, parseLayoutF, if_neg hne]
      rw [hn]
      simp [parseLayoutF_nil, hne]

/-- C8 witness: the concatenation property at the RFC1123 layout, and the
single-literal property at the operator-free layout "foo!". -/
theorem c8_parse_layout_witness :
    instsText (parseLayout RFC1123) = RFC1123 ∧
    parseLayout (strL "foo!") = [⟨opLiteral, strL "foo!"⟩] :=
  ⟨c8_parse_layout.1 RFC1123,
    c8_parse_layout.2 (strL "foo!") (by decide) (by decide)⟩

/-! ### Varint lemmas (C9, C10) -/

theorem lor_shiftLeft_eq_add (a b s : Nat) (h : a < 2 ^ s) :
    a ||| b <<< s = a + b * 2 ^ s := by
  induction s generalizing a b with
  | zero =>
    interval_cases a
    simp [Nat.shiftLeft_eq]
  | succ s ih =>
    have ha := Nat.bit_decomp a
    rw [← ha]
    have hb : b <<< (s + 1) = Nat.bit false (b <<< s) := by
      simp [Nat.bit, Nat.shiftLeft_succ, Nat.mul_comm]
    rw [hb, Nat.lor_bit]
    have ha2 : a.div2 < 2 ^ s := by
      have hp : 2 ^ (s + 1) = 2 ^ s * 2 := pow_succ 2 s
      rw [Nat.div2_val]
      omega
    rw [ih a.div2 b ha2]
    cases hob : a.bodd <;> simp [Nat.bit, Nat.pow_succ] <;> ring

theorem land_127_eq (r : Nat) (h : r < 128) : (128 + r) &&& 127 = r := by
  have h1 : (127 : Nat) = 2 ^ 7 - 1 := rfl
  rw [h1]
  have h2 : (128 + r) &&& (2 ^ 7 - 1) = (128 + r) % 2 ^ 7 := by
    apply Nat.eq_of_testBit_eq
    intro i
    rw [Nat.testBit_land, Nat.testBit_two_pow_sub_one, Nat.testBit_mod_two_pow]
    rw [Bool.and_comm]
  rw [h2]
  omega

theorem uvarintEncAux_ne_nil (fuel x : Nat) (h : 0 < fuel) :
    uvarintEncAux fuel x ≠ [] := by
  cases fuel with
  | zero => omega
  | succ fuel => simp only [uvarintEncAux]; split <;> simp

/-- The varint decode loop inverts the encode loop: starting at byte index
`i` with shift `7*i` and accumulator `x`, decoding the encoding of `n`
yields `x + n * 2^(7*i)` and consumes exactly the encoding's bytes. -/
theorem uvarintDec_enc (fuel : Nat) : ∀ (n i x : Nat), 10 ≤ fuel + i → i ≤ 9 →
    n < 2 ^ (64 - 7 * i) → x < 2 ^ (7 * i) →
    uvarintDec (uvarintEncAux fuel n) x (7 * i) i =
      (x + n * 2 ^ (7 * i), (i : Int) + ((uvarintEncAux fuel n).length : Int)) := by
  induction fuel with
  | zero => intro n i x hfi hi; omega
  | succ fuel ih =>
    intro n i x hfi hi hn64 hx
    by_cases h128 : n < 128
    · rw [uvarintEncAux, if_pos h128]
      have hM : MaxVarintLen64 = 10 := rfl
      have h19 : ¬ (i = MaxVarintLen64 - 1 ∧ 1 < n) := by
        rw [hM]
        rintro ⟨rfl, hb⟩
        norm_num at hn64
        omega
      have hlt : n * 2 ^ (7 * i) < 2 ^ 64 := by
        have hstep : n * 2 ^ (7 * i) < 2 ^ (64 - 7 * i) * 2 ^ (7 * i) :=
          mul_lt_mul_of_pos_right hn64 (Nat.two_pow_pos _)
        have hexp : 64 - 7 * i + 7 * i = 64 := by omega
        rw [← pow_add, hexp] at hstep
        exact hstep
      have hmod : n <<< (7 * i) % 18446744073709551616 = n <<< (7 * i) := by
        apply Nat.mod_eq_of_lt
        rw [Nat.shiftLeft_eq]
        exact hlt
      simp only [uvarintDec, hM]
      rw [if_neg (by omega : ¬ i = 10), if_pos (by omega : n < 128),
        if_neg (by rw [← hM]; exact h19), hmod, lor_shiftLeft_eq_add x n (7 * i) hx]
      simp
    · rw [uvarintEncAux, if_neg h128]
      have hi8 : i ≤ 8 := by
        rcases Nat.lt_or_ge i 9 with h | h
        · omega
        · exfalso
          have h9 : i = 9 := by omega
          rw [h9] at hn64
          norm_num at hn64
          omega
      have hM : MaxVarintLen64 = 10 := rfl
      have hmlt : n % 128 < 128 := Nat.mod_lt _ (by norm_num)
      have hband : (128 + n % 128) &&& 127 = n % 128 := land_127_eq _ hmlt
      have hpow : (2 : Nat) ^ (7 * (i + 1)) = 2 ^ (7 * i) * 128 := by
        rw [show 7 * (i + 1) = 7 * i + 7 by ring, pow_add]
        norm_num
      have hshlt : n % 128 * 2 ^ (7 * i) < 18446744073709551616 := by
        have h1 : n % 128 * 2 ^ (7 * i) < 2 ^ (7 * (i + 1)) := by
          rw [hpow]
          have := Nat.two_pow_pos (7 * i)
          nlinarith
        have h2 : (2 : Nat) ^ (7 * (i + 1)) ≤ 2 ^ 64 := by
          apply Nat.pow_le_pow_right (by norm_num)
          omega
        calc n % 128 * 2 ^ (7 * i) < 2 ^ (7 * (i + 1)) := h1
          _ ≤ 2 ^ 64 := h2
      have hmod : (n % 128) <<< (7 * i) % 18446744073709551616 =
          n % 128 * 2 ^ (7 * i) := by
        rw [Nat.shiftLeft_eq]
        exact Nat.mod_eq_of_lt hshlt
      have hx' : x + n % 128 * 2 ^ (7 * i) < 2 ^ (7 * (i + 1)) := by
        rw [hpow]
        have := Nat.two_pow_pos (7 * i)
        nlinarith
      have hn' : n / 128 < 2 ^ (64 - 7 * (i + 1)) := by
        have hsplit : (2 : Nat) ^ (64 - 7 * i) = 2 ^ (64 - 7 * (i + 1)) * 128 := by
          rw [show 64 - 7 * i = 64 - 7 * (i + 1) + 7 by omega, pow_add]
          norm_num
        rw [hsplit] at hn64
        omega
      have hlor : x ||| n % 128 * 2 ^ (7 * i) = x + n % 128 * 2 ^ (7 * i) := by
        conv_lhs => rw [← Nat.shiftLeft_eq]
        exact lor_shiftLeft_eq_add x (n % 128) (7 * i) hx
      simp only [uvarintDec, hM]
      rw [if_neg (by omega : ¬ i = 10), if_neg (by omega : ¬ 128 + n % 128 < 128),
        hband, hmod, hlor,
        show 7 * i + 7 = 7 * (i + 1) by ring,
        ih (n / 128) (i + 1) (x + n % 128 * 2 ^ (7 * i)) (by omega) (by omega) hn' hx']
      refine Prod.ext ?_ ?_
      · show x + n % 128 * 2 ^ (7 * i) + n / 128 * 2 ^ (7 * (i + 1)) =
          x + n * 2 ^ (7 * i)
        rw [hpow]
        have hnm : n % 128 + 128 * (n / 128) = n := Nat.mod_add_div n 128
        conv_rhs => rw [← hnm]
        ring
      · show ((i : Int) + 1) + _ = _
        simp only [List.length_cons]
        push_cast
        ring

theorem Uvarint_putUvarint (u : Nat) (h : u < 18446744073709551616) :
    Uvarint (putUvarint u) = (u, ((putUvarint u).length : Int)) := by
  have hu : u < 2 ^ (64 - 7 * 0) := by norm_num; omega
  have := uvarintDec_enc MaxVarintLen64 u 0 0 (by norm_num [MaxVarintLen64])
    (by norm_num) hu (by norm_num)
  simpa [Uvarint, putUvarint] using this

theorem PutVarint_eq (d : Int) (h1 : -9223372036854775808 ≤ d)
    (h2 : d < 9223372036854775808) :
    PutVarint d =
      putUvarint (if d < 0 then (-2 * d - 1).toNat else (2 * d).toNat) := by
  simp only [PutVarint]
  by_cases hd : d < 0
  · rw [if_pos hd, if_pos hd]
    congr 1
    omega
  · rw [if_neg hd, if_neg hd]
    congr 1
    omega

theorem Varint_PutVarint (d : Int) (h1 : -9223372036854775808 ≤ d)
    (h2 : d < 9223372036854775808) :
    Varint (PutVarint d) = (d, ((PutVarint d).length : Int)) := by
  rw [PutVarint_eq d h1 h2]
  by_cases hd : d < 0
  · rw [if_pos hd]
    have hu : (-2 * d - 1).toNat < 18446744073709551616 := by omega
    simp only [Varint]
    rw [Uvarint_putUvarint _ hu]
    have hodd : (-2 * d - 1).toNat % 2 = 1 := by omega
    have hand : (-2 * d - 1).toNat &&& 1 = 1 := by
      rw [Nat.and_one_is_mod]
      exact hodd
    have hshr : (-2 * d - 1).toNat >>> 1 = (-d - 1).toNat := by
      rw [Nat.shiftRight_eq_div_pow]
      omega
    simp only [hand, hshr]
    norm_num
    omega
  · rw [if_neg hd]
    have hu : (2 * d).toNat < 18446744073709551616 := by omega
    simp only [Varint]
    rw [Uvarint_putUvarint _ hu]
    have heven : (2 * d).toNat % 2 = 0 := by omega
    have hand : (2 * d).toNat &&& 1 = 0 := by
      rw [Nat.and_one_is_mod]
      exact heven
    have hshr : (2 * d).toNat >>> 1 = d.toNat := by
      rw [Nat.shiftRight_eq_div_pow]
      omega
    simp only [hand, hshr]
    norm_num
    omega

theorem UnmarshalBinary_MarshalBinary (d0 d : Date)
    (h1 : -9223372036854775808 ≤ d) (h2 : d < 9223372036854775808) :
    UnmarshalBinary d0 (MarshalBinary d) = (d, none) := by
  have hne : (PutVarint d).length ≠ 0 := by
    simp only [PutVarint, putUvarint]
    simp [uvarintEncAux_ne_nil MaxVarintLen64 _ (by norm_num [MaxVarintLen64])]
  simp only [UnmarshalBinary, MarshalBinary, Varint_PutVarint d h1 h2]
  simp [hne]

/-- C9: UnmarshalBinary round-trips MarshalBinary on every Date (every
int64 day count), and rejects truncated input (including empty input),
overflowing input, and input with trailing bytes, each with a distinct
error message. -/
theorem c9_unmarshal_binary :
    (∀ d0 d : Date, -9223372036854775808 ≤ d → d < 9223372036854775808 →
      UnmarshalBinary d0 (MarshalBinary d) = (d, none)) ∧
    UnmarshalBinary 5 [] = (5, some (strL "encoded date truncated")) ∧
    UnmarshalBinary 5 [128] = (5, some (strL "encoded date truncated")) ∧
    UnmarshalBinary 5 [128, 128, 128, 128, 128, 128, 128, 128, 128, 2] =
      (5, some (strL "encoded date overflows int")) ∧
    UnmarshalBinary 5 (MarshalBinary 717408 ++ [0]) =
      (5, some (strL "extra data after date")) ∧
    strL "encoded date truncated" ≠ strL "encoded date overflows int" ∧
    strL "encoded date truncated" ≠ strL "extra data after date" ∧
    strL "encoded date overflows int" ≠ strL "extra data after date" := by
  refine ⟨fun d0 d h1 h2 => UnmarshalBinary_MarshalBinary d0 d h1 h2,
    ?_, ?_, ?_, ?_, ?_, ?_, ?_⟩ <;> decide

/-- C9 witness: the round trip at receiver 5 and day count 717408
(2023-07-14 is day 738714; 717408 is the test-suite value for 1964-12-104). -/
theorem c9_unmarshal_binary_witness :
    UnmarshalBinary 5 (MarshalBinary 717408) = (717408, none) :=
  c9_unmarshal_binary.1 5 717408 (by decide) (by decide)

/-- C10: whenever UnmarshalBinary or UnmarshalText returns an error, the
receiver value is returned unchanged. -/
theorem c10_receiver_unchanged :
    (∀ (d0 : Date) (b : List Nat), (UnmarshalBinary d0 b).2 ≠ none →
      (UnmarshalBinary d0 b).1 = d0) ∧
    (∀ (d0 : Date) (b : List Char), (UnmarshalText d0 b).2 ≠ none →
      (UnmarshalText d0 b).1 = d0) := by
  constructor
  · intro d0 b h
    simp only [UnmarshalBinary] at *
    split_ifs at * <;> simp_all
  · intro d0 b h
    simp only [UnmarshalText] at *
    cases hp : Parse RFC3339 b <;> simp_all

/-- C10 witness: the failing binary input `[]` and text input `"x"` leave
receivers 5 and 7 unchanged. -/
theorem c10_receiver_unchanged_witness :
    (UnmarshalBinary 5 []).1 = 5 ∧ (UnmarshalText 7 (strL "x")).1 = 7 :=
  ⟨c10_receiver_unchanged.1 5 [] (by decide),
    c10_receiver_unchanged.2 7 (strL "x") (by decide)⟩

end GoDate
